import Mathlib

/-!
Verification of the go-jsonnet core evaluator builtins and static analyzer.

The Go source (`builtins.go`, `static_analyzer.go`, `ast/ast.go`) is embedded
shallowly: each builtin becomes a Lean function over an explicit value model,
and evaluation effects (thunk forcing and runtime errors) become a small
state-passing monad that records the order in which potential values are
forced.  Parts of the interpreter that the builtins rely on but whose source
is not available here (the value model internals, the typed coercion helpers,
object field enumeration/lookup, function invocation, JSON manifestation) are
modelled from the specification and are marked as such in their doc comments.
-/

namespace GoJsonnet

/-- Modelled from the spec: Go `float64` (IEEE-754 double).  The
classification into NaN, signed infinity and finite value is modelled
exactly; finite values are carried as exact rationals and rounding to 53-bit
precision is omitted (no claim depends on it), while overflow of an exact
finite result beyond the finite double range produces an infinity, as in
IEEE-754.  Negative zero is identified with zero (Go `==` identifies them). -/
inductive GoFloat where
  | nan : GoFloat
  | inf (negative : Bool) : GoFloat
  | finite (q : ℚ) : GoFloat
deriving DecidableEq, Repr

namespace GoFloat

/-- Threshold beyond which an exact real result overflows to infinity. -/
def overflowBound : ℚ := 2 ^ 1024

/-- Largest finite `float64`, `(2^53 - 1) * 2^971`. -/
def maxFinite : ℚ := (2 ^ 53 - 1) * 2 ^ 971

/-- Classify an exact finite result: overflow to a signed infinity. -/
def roundF (q : ℚ) : GoFloat :=
  if overflowBound ≤ q then .inf false
  else if q ≤ -overflowBound then .inf true
  else .finite q

/-- Truncation of a rational toward zero, as Go `int(x)` / `math.Trunc`. -/
def truncQ (q : ℚ) : ℤ :=
  if 0 ≤ q then ⌊q⌋ else ⌈q⌉

def isNaN : GoFloat → Bool
  | .nan => true
  | _ => false

def isInf : GoFloat → Bool
  | .inf _ => true
  | _ => false

/-- Go `x + y` on float64. -/
def add : GoFloat → GoFloat → GoFloat
  | .nan, _ => .nan
  | _, .nan => .nan
  | .inf s, .inf t => if s = t then .inf s else .nan
  | .inf s, .finite _ => .inf s
  | .finite _, .inf t => .inf t
  | .finite a, .finite b => roundF (a + b)

/-- Go `x - y` on float64. -/
def sub : GoFloat → GoFloat → GoFloat
  | .nan, _ => .nan
  | _, .nan => .nan
  | .inf s, .inf t => if s = t then .nan else .inf s
  | .inf s, .finite _ => .inf s
  | .finite _, .inf t => .inf (!t)
  | .finite a, .finite b => roundF (a - b)

/-- Go `x * y` on float64. -/
def mul : GoFloat → GoFloat → GoFloat
  | .nan, _ => .nan
  | _, .nan => .nan
  | .inf s, .inf t => .inf (s != t)
  | .inf s, .finite b => if b = 0 then .nan else .inf (s != decide (b < 0))
  | .finite a, .inf t => if a = 0 then .nan else .inf (decide (a < 0) != t)
  | .finite a, .finite b => roundF (a * b)

/-- Go `x / y` on float64. -/
def div : GoFloat → GoFloat → GoFloat
  | .nan, _ => .nan
  | _, .nan => .nan
  | .inf _, .inf _ => .nan
  | .inf s, .finite b => .inf (s != decide (b < 0))
  | .finite _, .inf _ => .finite 0
  | .finite a, .finite b =>
      if b = 0 then (if a = 0 then .nan else .inf (decide (a < 0)))
      else roundF (a / b)

/-- Go `math.Mod(x, y)`: result of `x - trunc(x/y)*y`, NaN when `x` is an
infinity or `y` is zero; `x` unchanged when `y` is an infinity. -/
def mod : GoFloat → GoFloat → GoFloat
  | .nan, _ => .nan
  | _, .nan => .nan
  | .inf _, _ => .nan
  | .finite a, .inf _ => .finite a
  | .finite a, .finite b =>
      if b = 0 then .nan else .finite (a - b * (truncQ (a / b) : ℚ))

/-- Go float comparison with literal `0` (`y.value == 0`). -/
def isZero : GoFloat → Bool
  | .finite q => q = 0
  | _ => false

/-- Go `x < y` on float64: NaN compares false, infinities are ordered
beyond every finite value. -/
def lt : GoFloat → GoFloat → Bool
  | .nan, _ => false
  | _, .nan => false
  | .inf s, .inf t => s && !t
  | .inf s, .finite _ => s
  | .finite _, .inf t => !t
  | .finite a, .finite b => a < b

end GoFloat

/-- Jsonnet object field hide flag (`ast.ObjectFieldHide`). -/
inductive Hide where
  | hidden : Hide
  | inherit : Hide
  | visible : Hide
deriving DecidableEq, Repr

/-- Modelled from the spec: the hidden-visibility flag passed to object field
enumeration (`withHidden` / `withoutHidden` in the value model). -/
inductive Hidden where
  | withHidden : Hidden
  | withoutHidden : Hidden
deriving DecidableEq, Repr

/-- Modelled from the spec: the value model's `withHiddenFromBool`. -/
def withHiddenFromBool (b : Bool) : Hidden :=
  if b then .withHidden else .withoutHidden

/-- Runtime errors raised during evaluation.  `generic` is `e.Error(msg)`;
the two type-error forms are modelled from the spec: the typed coercion
helpers raise an error naming the expected and the actual typename, and
`typeErrorGeneral` an error naming only the offending value's typename. -/
inductive RtError where
  | generic (msg : String) : RtError
  | typeSpecific (expected actual : String) : RtError
  | typeGeneral (actual : String) : RtError
deriving DecidableEq, Repr

/-- Whether a runtime error is a type error. -/
def RtError.isTypeError : RtError → Bool
  | .typeSpecific _ _ => true
  | .typeGeneral _ => true
  | .generic _ => false

mutual
/-- The runtime value model (`value` in the Go source), modelled from the
spec: null, boolean, number, string, array of thunks, function, object.
Function bodies and call environments do not participate in any claim and
are abstracted to the parameter list plus an identity. -/
inductive Value where
  | null : Value
  | bool (b : Bool) : Value
  | num (x : GoFloat) : Value
  | str (s : String) : Value
  | arr (elements : List PotentialValue) : Value
  | func (parameters : List String) (fid : ℕ) : Value
  | obj (o : ObjVal) : Value

/-- Outcome of forcing a thunk. -/
inductive Res where
  | ok (v : Value) : Res
  | err (e : RtError) : Res

/-- Modelled from the spec: a `potentialValue` (thunk).  Forcing is memoized
and always yields the same outcome, so a thunk is its outcome `res` plus a
`tag` identifying it in the forcing log. -/
inductive PotentialValue where
  | mk (tag : ℕ) (res : Res) : PotentialValue

/-- Modelled from the spec: an unbound object field (a closure producing the
field value once bound); `bindings` is the `bindingsUnboundField` wrapper
that re-binds captured upvalues around an inner unbound field. -/
inductive UnboundField where
  | plain (fid : ℕ) : UnboundField
  | bindings (inner : UnboundField) (frame : List (String × PotentialValue)) : UnboundField

/-- Modelled from the spec: a `valueObject` is either a simple object (field
table `name -> (hide flag, unbound field)` plus assertions plus captured
`upValues`) or an extended inheritance pair where `right` extends `left`. -/
inductive ObjVal where
  | simple (upValues : List (String × PotentialValue))
      (fields : List (String × Hide × UnboundField))
      (asserts : List UnboundField) : ObjVal
  | extended (left right : ObjVal) : ObjVal
end

/-- Tag of a thunk. -/
def PotentialValue.tag : PotentialValue → ℕ
  | .mk t _ => t

/-- Memoized outcome of a thunk. -/
def PotentialValue.res : PotentialValue → Res
  | .mk _ r => r

/-- Modelled from the spec: the ready thunk wrapping an already-computed
value; it carries no interesting identity, tag `0`. -/
def readyValue (v : Value) : PotentialValue := .mk 0 (.ok v)

/-- Modelled from the spec: `intToValue` turns a machine integer into a
number value. -/
def intToValue (i : ℤ) : Value := .num (.finite i)

/-- Typename string of a value, as used in error messages and `std.type`. -/
def Value.typename : Value → String
  | .null => "null"
  | .bool _ => "boolean"
  | .num _ => "number"
  | .str _ => "string"
  | .arr _ => "array"
  | .func _ _ => "function"
  | .obj _ => "object"

/-- Evaluation monad: a runtime-error computation that also appends to a log
the tags of the thunks it forces, in forcing order.  The log survives an
error, so non-forcing of an operand is observable. -/
def EvalM (α : Type) : Type := List ℕ → Except RtError α × List ℕ

instance : Monad EvalM where
  pure a := fun log => (Except.ok a, log)
  bind m f := fun log =>
    match m log with
    | (Except.ok a, log2) => f a log2
    | (Except.error e, log2) => (Except.error e, log2)

/-- Raise a runtime error. -/
def throwE {α : Type} (e : RtError) : EvalM α := fun log => (Except.error e, log)

/-- Lift a pure fallible result into the monad. -/
def ofExcept {α : Type} (x : Except RtError α) : EvalM α := fun log => (x, log)

/-- Modelled from the spec: `e.evaluate(pv)` forces a thunk: its tag is
appended to the forcing log and its memoized outcome returned. -/
def evaluate (pv : PotentialValue) : EvalM Value := fun log =>
  (match pv.res with
   | .ok v => Except.ok v
   | .err e => Except.error e,
   log ++ [pv.tag])

/-- Modelled from the spec: `e.typeErrorGeneral(x)` names the offending
value's typename. -/
def typeErrorGeneral (v : Value) : RtError := .typeGeneral v.typename

/-- Modelled from the spec: `e.getNumber(v)` coerces an already-forced value
to a number, raising `Expected number, got <actual>` otherwise. -/
def getNumber (v : Value) : Except RtError GoFloat :=
  match v with
  | .num x => Except.ok x
  | _ => Except.error (.typeSpecific "number" v.typename)

/-- Modelled from the spec: `e.getString(v)`. -/
def getString (v : Value) : Except RtError String :=
  match v with
  | .str s => Except.ok s
  | _ => Except.error (.typeSpecific "string" v.typename)

/-- Modelled from the spec: `e.getBoolean(v)`. -/
def getBoolean (v : Value) : Except RtError Bool :=
  match v with
  | .bool b => Except.ok b
  | _ => Except.error (.typeSpecific "boolean" v.typename)

/-- Modelled from the spec: `e.getArray(v)`. -/
def getArray (v : Value) : Except RtError (List PotentialValue) :=
  match v with
  | .arr xs => Except.ok xs
  | _ => Except.error (.typeSpecific "array" v.typename)

/-- Modelled from the spec: `e.getObject(v)`. -/
def getObject (v : Value) : Except RtError ObjVal :=
  match v with
  | .obj o => Except.ok o
  | _ => Except.error (.typeSpecific "object" v.typename)

/-- Modelled from the spec: `e.getFunction(v)`. -/
def getFunction (v : Value) : Except RtError (List String × ℕ) :=
  match v with
  | .func ps fid => Except.ok (ps, fid)
  | _ => Except.error (.typeSpecific "function" v.typename)

/-- Modelled from the spec: `e.evaluateNumber(pv)` forces then coerces. -/
def evaluateNumber (pv : PotentialValue) : EvalM GoFloat := do
  let v ← evaluate pv
  ofExcept (getNumber v)

/-- Modelled from the spec: `e.evaluateString(pv)`. -/
def evaluateString (pv : PotentialValue) : EvalM String := do
  let v ← evaluate pv
  ofExcept (getString v)

/-- Modelled from the spec: `e.evaluateBoolean(pv)`. -/
def evaluateBoolean (pv : PotentialValue) : EvalM Bool := do
  let v ← evaluate pv
  ofExcept (getBoolean v)

/-- Modelled from the spec: `e.evaluateArray(pv)`. -/
def evaluateArray (pv : PotentialValue) : EvalM (List PotentialValue) := do
  let v ← evaluate pv
  ofExcept (getArray v)

/-- Modelled from the spec: `e.evaluateObject(pv)`. -/
def evaluateObject (pv : PotentialValue) : EvalM ObjVal := do
  let v ← evaluate pv
  ofExcept (getObject v)

/-- Modelled from the spec: `e.evaluateFunction(pv)`. -/
def evaluateFunction (pv : PotentialValue) : EvalM (List String × ℕ) := do
  let v ← evaluate pv
  ofExcept (getFunction v)

/-- Modelled from the spec: `concatStrings` concatenates two string
values. -/
def concatStrings (a b : String) : Value := .str (a ++ b)

/-- Modelled from the spec: `concatArrays` concatenates the element thunk
lists. -/
def concatArrays (a b : List PotentialValue) : Value := .arr (a ++ b)

/-- Modelled from the spec: `makeValueExtendedObject(left, right)` builds the
inheritance pair in which `right` extends `left`. -/
def makeValueExtendedObject (left right : ObjVal) : Value := .obj (.extended left right)

/-- Modelled from the spec: `stringLessThan` compares strings
lexicographically by code point, which coincides with `String` order. -/
def stringLessThan (a b : String) : Bool := a < b

/-- Modelled from the spec: `stringEqual`. -/
def stringEqual (a b : String) : Bool := a = b

/-- Type of the abstract JSON manifester `e.i.manifestJSON`, which the
builtins use only as a black box (the spec: `toString` semantics). -/
def Manifester : Type := Value → Except RtError String

/-- Embeds `builtinToString` from `builtins.go`: force the argument; strings
are returned unchanged, every other value is JSON-manifested. -/
def builtinToString (mj : Manifester) (xp : PotentialValue) : EvalM Value := do
  let x ← evaluate xp
  match x with
  | .str _ => pure x
  | _ =>
    match mj x with
    | Except.ok s => pure (.str s)
    | Except.error e => throwE e

/-- Embeds `builtinPlus` from `builtins.go`: force both operands, then
dispatch on the right then the left operand's type. -/
def builtinPlus (mj : Manifester) (xp yp : PotentialValue) : EvalM Value := do
  let x ← evaluate xp
  let y ← evaluate yp
  match y with
  | .str right => do
      let left ← builtinToString mj xp
      match left with
      | .str l => pure (concatStrings l right)
      -- unreachable: builtinToString yields a string or an error (Go type-asserts)
      | _ => pure left
  | _ =>
    match x with
    | .num left => do
        let right ← ofExcept (getNumber y)
        pure (.num (left.add right))
    | .str left => do
        let right ← builtinToString mj yp
        match right with
        | .str r => pure (concatStrings left r)
        -- unreachable: builtinToString yields a string or an error (Go type-asserts)
        | _ => pure right
    | .obj left => do
        let right ← ofExcept (getObject y)
        pure (makeValueExtendedObject left right)
    | .arr left => do
        let right ← ofExcept (getArray y)
        pure (concatArrays left right)
    | _ => throwE (typeErrorGeneral x)

/-- Embeds `builtinMinus` from `builtins.go`. -/
def builtinMinus (xp yp : PotentialValue) : EvalM Value := do
  let x ← evaluateNumber xp
  let y ← evaluateNumber yp
  pure (.num (x.sub y))

/-- Embeds `builtinMult` from `builtins.go`. -/
def builtinMult (xp yp : PotentialValue) : EvalM Value := do
  let x ← evaluateNumber xp
  let y ← evaluateNumber yp
  pure (.num (x.mul y))

/-- Embeds `makeDoubleCheck` from `builtins.go`. -/
def makeDoubleCheck (x : GoFloat) : EvalM Value :=
  if x.isNaN then throwE (.generic "Not a number")
  else if x.isInf then throwE (.generic "Overflow")
  else pure (.num x)

/-- Embeds `builtinDiv` from `builtins.go`. -/
def builtinDiv (xp yp : PotentialValue) : EvalM Value := do
  let x ← evaluateNumber xp
  let y ← evaluateNumber yp
  if y.isZero then throwE (.generic "Division by zero.")
  else makeDoubleCheck (x.div y)

/-- Embeds `builtinModulo` from `builtins.go`. -/
def builtinModulo (xp yp : PotentialValue) : EvalM Value := do
  let x ← evaluateNumber xp
  let y ← evaluateNumber yp
  if y.isZero then throwE (.generic "Division by zero.")
  else makeDoubleCheck (x.mod y)

/-- Embeds `builtinLess` from `builtins.go`: force the first argument, then
dispatch on its type and force the second with the matching coercion. -/
def builtinLess (xp yp : PotentialValue) : EvalM Value := do
  let x ← evaluate xp
  match x with
  | .num left => do
      let right ← evaluateNumber yp
      pure (.bool (left.lt right))
  | .str left => do
      let right ← evaluateString yp
      pure (.bool (stringLessThan left right))
  | _ => throwE (typeErrorGeneral x)

/-- Embeds `builtinGreater` from `builtins.go`: `builtinLess` with the
arguments swapped. -/
def builtinGreater (xp yp : PotentialValue) : EvalM Value :=
  builtinLess yp xp

/-- Negate a boolean value (`valueBoolean.not`), as used by the derived
comparison builtins; non-boolean input is impossible there. -/
def valueNot (v : Value) : Value :=
  match v with
  | .bool b => .bool (!b)
  | _ => v

/-- Embeds `builtinGreaterEq` from `builtins.go`: negation of
`builtinLess`. -/
def builtinGreaterEq (xp yp : PotentialValue) : EvalM Value := do
  let res ← builtinLess xp yp
  pure (valueNot res)

/-- Embeds `builtinLessEq` from `builtins.go`: negation of
`builtinGreater`. -/
def builtinLessEq (xp yp : PotentialValue) : EvalM Value := do
  let res ← builtinGreater xp yp
  pure (valueNot res)

/-- Embeds `builtinAnd` from `builtins.go`: force the left operand as a
boolean; when it is false return it, otherwise force and return the right
operand as a boolean. -/
def builtinAnd (xp yp : PotentialValue) : EvalM Value := do
  let x ← evaluateBoolean xp
  if !x then pure (.bool x)
  else do
    let y ← evaluateBoolean yp
    pure (.bool y)

/-- Embeds `builtinOr` from `builtins.go`: force the left operand as a
boolean; when it is true return it, otherwise force and return the right
operand as a boolean. -/
def builtinOr (xp yp : PotentialValue) : EvalM Value := do
  let x ← evaluateBoolean xp
  if x then pure (.bool x)
  else do
    let y ← evaluateBoolean yp
    pure (.bool y)

/-- Go `x == y` on float64: NaN is unequal to everything, including
itself. -/
def GoFloat.feq : GoFloat → GoFloat → Bool
  | .nan, _ => false
  | _, .nan => false
  | .inf s, .inf t => s = t
  | .inf _, .finite _ => false
  | .finite _, .inf _ => false
  | .finite a, .finite b => a = b

/-- Whether a field with the given hide flag is visible under the flag `h`:
per the spec, a field is enumerated when its flag is not `hidden` or hidden
fields are included. -/
def fieldVisible (h : Hidden) (hide : Hide) : Bool :=
  decide (hide ≠ .hidden) || decide (h = .withHidden)

/-- Modelled from the spec: `objectFields(obj, h)` enumerates the field
names of an object: for a simple object the names whose hide flag passes
`h`, for an extended object the union of both sides' names. -/
def objectFields : ObjVal → Hidden → List String
  | .simple _ fs _, h => (fs.filter (fun f => fieldVisible h f.2.1)).map Prod.fst
  | .extended l r, h =>
      let ln := objectFields l h
      ln ++ (objectFields r h).filter (fun n => !ln.contains n)

/-- Modelled from the spec: `tryObjectIndex(objectBinding(obj), name, h)`
walks the inheritance chain from the most derived (right) side and returns
the first definition of `name` that is visible under `h`, or none. -/
def tryObjectIndex : ObjVal → String → Hidden → Option (Hide × UnboundField)
  | .simple _ fs _, name, h =>
      fs.findSome? (fun f =>
        if f.1 = name ∧ fieldVisible h f.2.1 then some f.2 else none)
  | .extended l r, name, h =>
      (tryObjectIndex r name h).orElse (fun _ => tryObjectIndex l name h)

/-- Go `sort.Strings`: ascending lexicographic sort. -/
def sortStrings (l : List String) : List String :=
  List.insertionSort (fun a b => a ≤ b) l

/-- Embeds `builtinObjectFieldsEx` from `builtins.go`: force the object and
the flag, enumerate the field names, sort them and wrap each in a ready
string thunk. -/
def builtinObjectFieldsEx (objp includeHiddenP : PotentialValue) : EvalM Value := do
  let obj ← evaluateObject objp
  let includeHidden ← evaluateBoolean includeHiddenP
  let fields := sortStrings (objectFields obj (withHiddenFromBool includeHidden))
  pure (.arr (fields.map (fun fieldname => readyValue (.str fieldname))))

/-- Embeds `builtinObjectHasEx` from `builtins.go`: force the object, the
name and the flag and test whether `tryObjectIndex` finds the field. -/
def builtinObjectHasEx (objp fnamep includeHiddenP : PotentialValue) : EvalM Value := do
  let obj ← evaluateObject objp
  let fname ← evaluateString fnamep
  let includeHidden ← evaluateBoolean includeHiddenP
  let h := withHiddenFromBool includeHidden
  let fieldp := tryObjectIndex obj fname h
  pure (.bool fieldp.isSome)

/-- Modelled from the spec: the `duplicate field name: <n>` message. -/
def duplicateFieldNameErrMsg (fieldName : String) : String :=
  "duplicate field name: " ++ fieldName

/-- Inner loop of `builtinUglyObjectFlatMerge`: copy the fields of one
simple object into the accumulated field table, failing on a duplicate name
and wrapping each unbound field with the object's `upValues`. -/
def flatMergeFields (upValues : List (String × PotentialValue)) :
    List (String × Hide × UnboundField) → List (String × Hide × UnboundField) →
    Except RtError (List (String × Hide × UnboundField))
  | acc, [] => Except.ok acc
  | acc, (fieldName, fieldVal) :: rest =>
      if acc.any (fun g => g.1 = fieldName) then
        Except.error (.generic (duplicateFieldNameErrMsg fieldName))
      else
        flatMergeFields upValues
          (acc ++ [(fieldName, fieldVal.1, .bindings fieldVal.2 upValues)]) rest

/-- Outer loop of `builtinUglyObjectFlatMerge`: force each array element as
an object and merge its fields.  The Go code type-asserts each element to a
simple object (`obj.(*valueSimpleObject)`), which would panic on an extended
object; the panic is modelled as a distinguished internal error. -/
def flatMergeLoop : List PotentialValue → List (String × Hide × UnboundField) →
    EvalM (List (String × Hide × UnboundField))
  | [], acc => pure acc
  | elem :: rest, acc => do
      let o ← evaluateObject elem
      match o with
      | .simple upValues fs _ =>
          match flatMergeFields upValues acc fs with
          | Except.ok acc2 => flatMergeLoop rest acc2
          | Except.error er => throwE er
      | .extended _ _ =>
          throwE (.generic "INTERNAL: interface conversion to simple object failed")

/-- Embeds `builtinUglyObjectFlatMerge` from `builtins.go`: an empty input
array yields the zero simple object; otherwise the field tables are merged
with duplicate detection and the result carries no upvalues and no
assertions. -/
def builtinUglyObjectFlatMerge (objarrp : PotentialValue) : EvalM Value := do
  let objarr ← evaluateArray objarrp
  if objarr.isEmpty then pure (.obj (.simple [] [] []))
  else do
    let newFields ← flatMergeLoop objarr []
    pure (.obj (.simple [] newFields []))

/-- Type of the abstract function-invocation operation `fun.call(args)`,
modelled from the spec: invoking a function value on argument thunks yields
the thunk of its body in the call environment. -/
def FuncCall : Type := (List String × ℕ) → List PotentialValue → PotentialValue

/-- Go `int(x)` on a float64: truncation toward zero.  The conversion is
unspecified in Go for NaN, infinities and out-of-range values; those cases
are given fixed values here and no claim depends on them. -/
def GoFloat.toGoInt : GoFloat → ℤ
  | .nan => 0
  | .inf false => 2 ^ 63 - 1
  | .inf true => -(2 ^ 63)
  | .finite q => GoFloat.truncQ q

/-- Embeds `builtinMakeArray` from `builtins.go`: force the size and the
function, truncate the size to an integer `num`, and build the array of the
call thunks `f(0), ..., f(num-1)` (empty when `num <= 0`). -/
def builtinMakeArray (call : FuncCall) (szp funcp : PotentialValue) : EvalM Value := do
  let sz ← evaluateNumber szp
  let fn ← evaluateFunction funcp
  let num := sz.toGoInt
  let elems := (List.range num.toNat).map
    (fun i => call fn [readyValue (intToValue i)])
  pure (.arr elems)

/-- Embeds `primitiveEquals` from `builtins.go`: values of different
typenames compare unequal; primitives compare by value; two functions are an
error; two values of the same non-primitive typename are an error. -/
def primitiveEquals (xp yp : PotentialValue) : EvalM Value := do
  let x ← evaluate xp
  let y ← evaluate yp
  if x.typename ≠ y.typename then pure (.bool false)
  else
    match x with
    | .bool left => do
        let right ← ofExcept (getBoolean y)
        pure (.bool (left = right))
    | .num left => do
        let right ← ofExcept (getNumber y)
        pure (.bool (left.feq right))
    | .str left => do
        let right ← ofExcept (getString y)
        pure (.bool (stringEqual left right))
    | .null => pure (.bool true)
    | .func _ _ => throwE (.generic "Cannot test equality of functions")
    | _ => throwE (.generic ("primitiveEquals operates on primitive types, got " ++ x.typename))

/-- Wrap an integer into the two's-complement `int64` range. -/
def wrapInt64 (i : ℤ) : ℤ := ((i + 2 ^ 63) % 2 ^ 64) - 2 ^ 63

/-- Go `int64(x)` on a float64 operand of a bitwise builtin. -/
def GoFloat.toInt64 (x : GoFloat) : ℤ := wrapInt64 x.toGoInt

/-- Embeds `liftBitwise` from `builtins.go`: force both operands as numbers,
convert to 64-bit signed integers, apply the operation and double-check the
result (the back-conversion to float64 is exact up to rounding, which is
omitted). -/
def liftBitwise (f : ℤ → ℤ → ℤ) : PotentialValue → PotentialValue → EvalM Value :=
  fun xp yp => do
    let x ← evaluateNumber xp
    let y ← evaluateNumber yp
    makeDoubleCheck (.finite (f x.toInt64 y.toInt64))

/-- Unsigned 64-bit view of an `int64`, Go `uint(y)`. -/
def toUInt64 (i : ℤ) : ℕ := ((i % 2 ^ 64).toNat)

/-- Go `x << uint(y)` on int64: shifts of 64 or more produce zero. -/
def goShiftL (x y : ℤ) : ℤ :=
  let c := toUInt64 y
  if 64 ≤ c then 0 else wrapInt64 (x * 2 ^ c)

/-- Go `x >> uint(y)` on int64: arithmetic shift, saturating at the sign. -/
def goShiftR (x y : ℤ) : ℤ :=
  let c := toUInt64 y
  if 64 ≤ c then (if x < 0 then -1 else 0) else Int.fdiv x (2 ^ c)

/-- Bitwise and on int64 via the unsigned view. -/
def goAnd64 (x y : ℤ) : ℤ := wrapInt64 (Nat.land (toUInt64 x) (toUInt64 y))

/-- Bitwise or on int64 via the unsigned view. -/
def goOr64 (x y : ℤ) : ℤ := wrapInt64 (Nat.lor (toUInt64 x) (toUInt64 y))

/-- Bitwise xor on int64 via the unsigned view. -/
def goXor64 (x y : ℤ) : ℤ := wrapInt64 (Nat.xor (toUInt64 x) (toUInt64 y))

/-- Embeds `builtinShiftL` from `builtins.go`. -/
def builtinShiftL : PotentialValue → PotentialValue → EvalM Value :=
  liftBitwise goShiftL

/-- Embeds `builtinShiftR` from `builtins.go`. -/
def builtinShiftR : PotentialValue → PotentialValue → EvalM Value :=
  liftBitwise goShiftR

/-- Embeds `builtinBitwiseAnd` from `builtins.go`. -/
def builtinBitwiseAnd : PotentialValue → PotentialValue → EvalM Value :=
  liftBitwise goAnd64

/-- Embeds `builtinBitwiseOr` from `builtins.go`. -/
def builtinBitwiseOr : PotentialValue → PotentialValue → EvalM Value :=
  liftBitwise goOr64

/-- Embeds `builtinBitwiseXor` from `builtins.go`. -/
def builtinBitwiseXor : PotentialValue → PotentialValue → EvalM Value :=
  liftBitwise goXor64

/-- Embeds `todoFunc` from `builtins.go`: the placeholder body of the unused
operator slots; it raises the runtime error `not implemented yet`. -/
def todoFunc (xp yp : PotentialValue) : EvalM Value :=
  throwE (.generic "not implemented yet")

/-- A `BinaryBuiltin` record from `builtins.go`: a name, the dispatch
function and the parameter identifiers. -/
structure BinaryBuiltin where
  name : String
  function : PotentialValue → PotentialValue → EvalM Value
  parameters : List String

/-- Embeds `todo` from `builtins.go`: the placeholder table entry ("so that
we don't get segfaults"); its name is the Go zero value. -/
def todo : BinaryBuiltin :=
  { name := "", function := todoFunc, parameters := ["x", "y"] }

/-- The binary operators of `ast.go` (`ast.BinaryOp`). -/
inductive BinaryOp where
  | bopMult | bopDiv | bopPercent
  | bopPlus | bopMinus
  | bopShiftL | bopShiftR
  | bopGreater | bopGreaterEq | bopLess | bopLessEq | bopIn
  | bopManifestEqual | bopManifestUnequal
  | bopBitwiseAnd | bopBitwiseXor | bopBitwiseOr
  | bopAnd | bopOr
deriving DecidableEq, Repr

/-- Embeds `desugaredBop` from `builtins.go`: the operators eliminated
before evaluation, mapped to the standard-library function that replaces
them. -/
def desugaredBop : BinaryOp → Option String
  | .bopPercent => some "mod"
  | .bopManifestEqual => some "equals"
  | .bopManifestUnequal => some "notEquals"
  | .bopIn => some "objectHasAll"
  | _ => none

/-- Embeds `bopBuiltins` from `builtins.go`: the operator dispatch table (a
sparse Go array; absent slots are `none`).  The `+` entry needs the
manifester for string coercion. -/
def bopBuiltins (mj : Manifester) : BinaryOp → Option BinaryBuiltin
  | .bopMult => some { name := "operator*", function := builtinMult, parameters := ["x", "y"] }
  | .bopDiv => some { name := "operator/", function := builtinDiv, parameters := ["x", "y"] }
  | .bopPercent => some todo
  | .bopPlus => some { name := "operator+", function := builtinPlus mj, parameters := ["x", "y"] }
  | .bopMinus => some { name := "operator-", function := builtinMinus, parameters := ["x", "y"] }
  | .bopShiftL => some { name := "operator<<", function := builtinShiftL, parameters := ["x", "y"] }
  | .bopShiftR => some { name := "operator>>", function := builtinShiftR, parameters := ["x", "y"] }
  | .bopGreater => some { name := "operator>", function := builtinGreater, parameters := ["x", "y"] }
  | .bopGreaterEq => some { name := "operator>=", function := builtinGreaterEq, parameters := ["x", "y"] }
  | .bopLess => some { name := "operator<,", function := builtinLess, parameters := ["x", "y"] }
  | .bopLessEq => some { name := "operator<=", function := builtinLessEq, parameters := ["x", "y"] }
  | .bopIn => none
  | .bopManifestEqual => none
  | .bopManifestUnequal => none
  | .bopBitwiseAnd => some { name := "operator&", function := builtinBitwiseAnd, parameters := ["x", "y"] }
  | .bopBitwiseXor => some { name := "operator^", function := builtinBitwiseXor, parameters := ["x", "y"] }
  | .bopBitwiseOr => some { name := "operator|", function := builtinBitwiseOr, parameters := ["x", "y"] }
  | .bopAnd => some { name := "operator&&", function := builtinAnd, parameters := ["x", "y"] }
  | .bopOr => some { name := "operator||", function := builtinOr, parameters := ["x", "y"] }

/-- The desugared AST node kinds handled by `static_analyzer.go`
(`ast.go`): only the structure the analyzer inspects is carried (children,
binders, identifiers); literals carry nothing. -/
inductive AST where
  | apply (target : AST) (positional : List AST) (named : List (String × AST)) : AST
  | array (elements : List AST) : AST
  | binary (left right : AST) : AST
  | conditional (cond branchTrue branchFalse : AST) : AST
  | error (expr : AST) : AST
  | function (required : List String) (optional : List (String × AST)) (body : AST) : AST
  | importA : AST
  | importStr : AST
  | inSuper (indexE : AST) : AST
  | superIndex (indexE : AST) : AST
  | index (target indexE : AST) : AST
  | localA (binds : List (String × AST)) (body : AST) : AST
  | litBool : AST
  | litNull : AST
  | litNum : AST
  | litStr : AST
  | desugaredObject (asserts : List AST) (fields : List (AST × AST)) : AST
  | self : AST
  | unary (expr : AST) : AST
  | var (id : String) : AST

/-- Membership test of `ast.IdentifierSet` (`Contains`). -/
def setContains (s : List String) (x : String) : Bool := s.contains x

/-- Insertion into `ast.IdentifierSet` (`Add`). -/
def setAdd (s : List String) (x : String) : List String :=
  if s.contains x then s else s ++ [x]

/-- Removal from `ast.IdentifierSet` (`Remove`). -/
def setRemove (s : List String) (x : String) : List String :=
  s.filter (fun y => y ≠ x)

/-- Union into `ast.IdentifierSet` (`Append`). -/
def setAppend (s t : List String) : List String := t.foldl setAdd s

/-- Scope extension shared by the `Function` and `Local` cases: clone the
scope and `Add` each binder in order. -/
def addAll (vars ids : List String) : List String := ids.foldl setAdd vars

/-- The Go `analysisState`: the first error found and the accumulated free
variables. -/
structure AnalysisState where
  err : Option String
  freeVars : List String
deriving DecidableEq, Repr

mutual
/-- Embeds `analyzeVisit` from `static_analyzer.go`: one visit of a node,
returning the error (if any) and the node's computed free-variable set (the
value `SetFreeVariables` stores, an ordered slice).  The early error
returns of the Go code skip that bookkeeping, leaving the parser's empty
initial attribute. -/
def analyzeVisit (a : AST) (inObject : Bool) (vars : List String) :
    Option String × List String :=
  match a with
  | .apply target positional named =>
      let s := visitNext target inObject vars ⟨none, []⟩
      let s := visitList positional inObject vars s
      let s := visitSnd named inObject vars s
      (s.err, sortStrings s.freeVars)
  | .array elements =>
      let s := visitList elements inObject vars ⟨none, []⟩
      (s.err, sortStrings s.freeVars)
  | .binary left right =>
      let s := visitNext left inObject vars ⟨none, []⟩
      let s := visitNext right inObject vars s
      (s.err, sortStrings s.freeVars)
  | .conditional cond branchTrue branchFalse =>
      let s := visitNext cond inObject vars ⟨none, []⟩
      let s := visitNext branchTrue inObject vars s
      let s := visitNext branchFalse inObject vars s
      (s.err, sortStrings s.freeVars)
  | .error expr =>
      let s := visitNext expr inObject vars ⟨none, []⟩
      (s.err, sortStrings s.freeVars)
  | .function required optional body =>
      let newVars := addAll (addAll vars required) (optional.map Prod.fst)
      let s := visitSnd optional inObject newVars ⟨none, []⟩
      let s := visitNext body inObject newVars s
      let fv := (optional.map Prod.fst).foldl setRemove (required.foldl setRemove s.freeVars)
      (s.err, sortStrings fv)
  | .importA => (none, sortStrings [])
  | .importStr => (none, sortStrings [])
  | .inSuper indexE =>
      if !inObject then (some "Can't use super outside of an object.", [])
      else
        let s := visitNext indexE inObject vars ⟨none, []⟩
        (s.err, sortStrings s.freeVars)
  | .superIndex indexE =>
      if !inObject then (some "Can't use super outside of an object.", [])
      else
        let s := visitNext indexE inObject vars ⟨none, []⟩
        (s.err, sortStrings s.freeVars)
  | .index target indexE =>
      let s := visitNext target inObject vars ⟨none, []⟩
      let s := visitNext indexE inObject vars s
      (s.err, sortStrings s.freeVars)
  | .localA binds body =>
      let newVars := addAll vars (binds.map Prod.fst)
      let s := visitSnd binds inObject newVars ⟨none, []⟩
      let s := visitNext body inObject newVars s
      let fv := (binds.map Prod.fst).foldl setRemove s.freeVars
      (s.err, sortStrings fv)
  | .litBool => (none, sortStrings [])
  | .litNull => (none, sortStrings [])
  | .litNum => (none, sortStrings [])
  | .litStr => (none, sortStrings [])
  | .desugaredObject asserts fields =>
      let s := visitFields fields inObject vars ⟨none, []⟩
      let s := visitList asserts true vars s
      (s.err, sortStrings s.freeVars)
  | .self =>
      if !inObject then (some "Can't use self outside of an object.", [])
      else (none, sortStrings [])
  | .unary expr =>
      let s := visitNext expr inObject vars ⟨none, []⟩
      (s.err, sortStrings s.freeVars)
  | .var id =>
      if !setContains vars id then (some ("Unknown variable: " ++ id), [])
      else (none, sortStrings (setAdd [] id))

/-- Embeds `visitNext` from `static_analyzer.go`: skip once an error has
been recorded, else visit the child and union its free variables. -/
def visitNext (a : AST) (inObject : Bool) (vars : List String)
    (s : AnalysisState) : AnalysisState :=
  if s.err.isSome then s
  else
    let r := analyzeVisit a inObject vars
    ⟨r.1, setAppend s.freeVars r.2⟩

/-- Loop calling `visitNext` on each node of a list (positional arguments,
array elements, object assertions). -/
def visitList (l : List AST) (inObject : Bool) (vars : List String)
    (s : AnalysisState) : AnalysisState :=
  match l with
  | [] => s
  | a :: rest => visitList rest inObject vars (visitNext a inObject vars s)

/-- Loop calling `visitNext` on the node of each named pair (named
arguments, optional-parameter defaults, local binds). -/
def visitSnd (l : List (String × AST)) (inObject : Bool) (vars : List String)
    (s : AnalysisState) : AnalysisState :=
  match l with
  | [] => s
  | (_, a) :: rest => visitSnd rest inObject vars (visitNext a inObject vars s)

/-- Loop over desugared object fields: the field name is visited in the
outer `inObject` context, the field body with `inObject = true`. -/
def visitFields (l : List (AST × AST)) (inObject : Bool) (vars : List String)
    (s : AnalysisState) : AnalysisState :=
  match l with
  | [] => s
  | (nameE, body) :: rest =>
      visitFields rest inObject vars
        (visitNext body true vars (visitNext nameE inObject vars s))
end

/-- Embeds `analyze` from `static_analyzer.go`: run the visit on the root
with `inObject = false` and the initial scope `{std}`, returning the
error. -/
def analyze (node : AST) : Option String :=
  (analyzeVisit node false (setAdd [] "std")).1

mutual
/-- The specification's characterization of a static error: the tree
contains a `var` whose identifier is not bound in its scope, or a `self`,
`superIndex` or `inSuper` node outside any object.  Written directly from
the spec's words, independently of the analyzer's state threading. -/
def hasStaticViolation (a : AST) (inObject : Bool) (vars : List String) : Bool :=
  match a with
  | .apply target positional named =>
      hasStaticViolation target inObject vars
        || anyViolation positional inObject vars
        || anySndViolation named inObject vars
  | .array elements => anyViolation elements inObject vars
  | .binary left right =>
      hasStaticViolation left inObject vars || hasStaticViolation right inObject vars
  | .conditional cond branchTrue branchFalse =>
      hasStaticViolation cond inObject vars
        || hasStaticViolation branchTrue inObject vars
        || hasStaticViolation branchFalse inObject vars
  | .error expr => hasStaticViolation expr inObject vars
  | .function required optional body =>
      let newVars := addAll (addAll vars required) (optional.map Prod.fst)
      anySndViolation optional inObject newVars
        || hasStaticViolation body inObject newVars
  | .importA => false
  | .importStr => false
  | .inSuper indexE => !inObject || hasStaticViolation indexE inObject vars
  | .superIndex indexE => !inObject || hasStaticViolation indexE inObject vars
  | .index target indexE =>
      hasStaticViolation target inObject vars || hasStaticViolation indexE inObject vars
  | .localA binds body =>
      let newVars := addAll vars (binds.map Prod.fst)
      anySndViolation binds inObject newVars
        || hasStaticViolation body inObject newVars
  | .litBool => false
  | .litNull => false
  | .litNum => false
  | .litStr => false
  | .desugaredObject asserts fields =>
      fieldsViolation fields inObject vars || anyViolation asserts true vars
  | .self => !inObject
  | .unary expr => hasStaticViolation expr inObject vars
  | .var id => !setContains vars id

/-- Any node of a list contains a violation. -/
def anyViolation (l : List AST) (inObject : Bool) (vars : List String) : Bool :=
  match l with
  | [] => false
  | a :: rest => hasStaticViolation a inObject vars || anyViolation rest inObject vars

/-- Any node of a named-pair list contains a violation. -/
def anySndViolation (l : List (String × AST)) (inObject : Bool) (vars : List String) : Bool :=
  match l with
  | [] => false
  | (_, a) :: rest => hasStaticViolation a inObject vars || anySndViolation rest inObject vars

/-- Any object field contains a violation: the name in the outer context,
the body inside the object. -/
def fieldsViolation (l : List (AST × AST)) (inObject : Bool) (vars : List String) : Bool :=
  match l with
  | [] => false
  | (nameE, body) :: rest =>
      hasStaticViolation nameE inObject vars
        || hasStaticViolation body true vars
        || fieldsViolation rest inObject vars
end

/-! Theorems settling the claims. -/

/-- C3: the short-circuit operators: `&&` forces its left operand first and,
when it is false, returns false with the right operand never forced (the
result and the forcing log are independent of the right thunk); `||` dually
for a true left operand; otherwise the result is the forced right operand,
which must be a boolean (a non-boolean right operand is a type error). -/
theorem claim_C3_short_circuit :
    (∀ (ta : ℕ) (yp : PotentialValue) (log : List ℕ),
        builtinAnd (.mk ta (.ok (.bool false))) yp log
          = (Except.ok (Value.bool false), log ++ [ta]))
  ∧ (∀ (ta tb : ℕ) (b : Bool) (log : List ℕ),
        builtinAnd (.mk ta (.ok (.bool true))) (.mk tb (.ok (.bool b))) log
          = (Except.ok (Value.bool b), log ++ [ta, tb]))
  ∧ (∀ (ta tb : ℕ) (v : Value) (log : List ℕ), v.typename ≠ "boolean" →
        builtinAnd (.mk ta (.ok (.bool true))) (.mk tb (.ok v)) log
          = (Except.error (RtError.typeSpecific "boolean" v.typename), log ++ [ta, tb]))
  ∧ (∀ (ta : ℕ) (yp : PotentialValue) (log : List ℕ),
        builtinOr (.mk ta (.ok (.bool true))) yp log
          = (Except.ok (Value.bool true), log ++ [ta]))
  ∧ (∀ (ta tb : ℕ) (b : Bool) (log : List ℕ),
        builtinOr (.mk ta (.ok (.bool false))) (.mk tb (.ok (.bool b))) log
          = (Except.ok (Value.bool b), log ++ [ta, tb]))
  ∧ (∀ (ta tb : ℕ) (v : Value) (log : List ℕ), v.typename ≠ "boolean" →
        builtinOr (.mk ta (.ok (.bool false))) (.mk tb (.ok v)) log
          = (Except.error (RtError.typeSpecific "boolean" v.typename), log ++ [ta, tb])) := by
  refine ⟨fun ta yp log => rfl, ?_, ?_, fun ta yp log => rfl, ?_, ?_⟩
  · intro ta tb b log
    rw [show log ++ [ta, tb] = (log ++ [ta]) ++ [tb] by simp]
    rfl
  · intro ta tb v log h
    rw [show log ++ [ta, tb] = (log ++ [ta]) ++ [tb] by simp]
    cases v with
    | bool b => exact absurd rfl h
    | null => rfl
    | num x => rfl
    | str s => rfl
    | arr es => rfl
    | func ps fid => rfl
    | obj o => rfl
  · intro ta tb b log
    rw [show log ++ [ta, tb] = (log ++ [ta]) ++ [tb] by simp]
    rfl
  · intro ta tb v log h
    rw [show log ++ [ta, tb] = (log ++ [ta]) ++ [tb] by simp]
    cases v with
    | bool b => exact absurd rfl h
    | null => rfl
    | num x => rfl
    | str s => rfl
    | arr es => rfl
    | func ps fid => rfl
    | obj o => rfl

/-- Witness for C3: a concrete run of the non-boolean-right-operand case. -/
theorem claim_C3_short_circuit_witness :
    Value.null.typename ≠ "boolean"
  ∧ builtinAnd (.mk 1 (.ok (.bool true))) (.mk 2 (.ok .null)) []
      = (Except.error (RtError.typeSpecific "boolean" Value.null.typename), [1, 2]) :=
  ⟨by decide, claim_C3_short_circuit.2.2.1 1 2 .null [] (by decide)⟩

/-- C4 counterexample: `x > y` forces the RIGHT operand first, because
`builtinGreater` is `builtinLess` with swapped arguments: at the concrete
input `1 > 2`, the tag of the right operand (2) enters the forcing log
before the tag of the left operand (1), contradicting the claimed strict
left-to-right forcing order. -/
theorem claim_C4_counterexample :
    builtinGreater (.mk 1 (.ok (.num (.finite 1)))) (.mk 2 (.ok (.num (.finite 2)))) []
      = (Except.ok (Value.bool false), [2, 1])
  ∧ [2, 1] ≠ [1, 2] := by
  constructor
  · rfl
  · decide

/-- C4 as amended: the forcing order of the comparison builtins is
deterministic, but only `<` and `>=` force the left operand first; `>` and
`<=` are implemented by swapping the arguments of `builtinLess` and hence
force the right operand before the left one. -/
theorem claim_C4_forcing_order :
    (∀ (ta tb : ℕ) (x : GoFloat) (r : Res) (log : List ℕ),
        (builtinLess (.mk ta (.ok (.num x))) (.mk tb r) log).2 = log ++ [ta, tb])
  ∧ (∀ (ta tb : ℕ) (s : String) (r : Res) (log : List ℕ),
        (builtinLess (.mk ta (.ok (.str s))) (.mk tb r) log).2 = log ++ [ta, tb])
  ∧ (∀ (ta tb : ℕ) (x : GoFloat) (r : Res) (log : List ℕ),
        (builtinGreaterEq (.mk ta (.ok (.num x))) (.mk tb r) log).2 = log ++ [ta, tb])
  ∧ (∀ (ta tb : ℕ) (y : GoFloat) (r : Res) (log : List ℕ),
        (builtinGreater (.mk ta r) (.mk tb (.ok (.num y))) log).2 = log ++ [tb, ta])
  ∧ (∀ (ta tb : ℕ) (y : GoFloat) (r : Res) (log : List ℕ),
        (builtinLessEq (.mk ta r) (.mk tb (.ok (.num y))) log).2 = log ++ [tb, ta]) := by
  refine ⟨?_, ?_, ?_, ?_, ?_⟩
  · intro ta tb x r log
    rw [show log ++ [ta, tb] = (log ++ [ta]) ++ [tb] by simp]
    cases r with
    | ok v => cases v <;> rfl
    | err e => rfl
  · intro ta tb s r log
    rw [show log ++ [ta, tb] = (log ++ [ta]) ++ [tb] by simp]
    cases r with
    | ok v => cases v <;> rfl
    | err e => rfl
  · intro ta tb x r log
    rw [show log ++ [ta, tb] = (log ++ [ta]) ++ [tb] by simp]
    cases r with
    | ok v => cases v <;> rfl
    | err e => rfl
  · intro ta tb y r log
    rw [show log ++ [tb, ta] = (log ++ [tb]) ++ [ta] by simp]
    cases r with
    | ok v => cases v <;> rfl
    | err e => rfl
  · intro ta tb y r log
    rw [show log ++ [tb, ta] = (log ++ [tb]) ++ [ta] by simp]
    cases r with
    | ok v => cases v <;> rfl
    | err e => rfl

/-- C8 counterexample: the `%` slot of the operator table is the `todo`
placeholder, and using it does not panic: its function returns the ordinary
runtime error `not implemented yet` as an error value. -/
theorem claim_C8_counterexample :
    bopBuiltins (fun _ => Except.error (.generic "")) .bopPercent = some todo
  ∧ todoFunc (readyValue .null) (readyValue .null) []
      = (Except.error (RtError.generic "not implemented yet"), []) :=
  ⟨rfl, rfl⟩

/-- C8 as amended: the operator table marks the `%` slot with the `todo`
placeholder whose function raises the runtime error `not implemented yet`
if used (it exists only so the slot is not nil), and `%` is desugared away
before evaluation by mapping it to the stdlib `mod` function in the
desugared-operator map. -/
theorem claim_C8_percent_slot :
    (∀ mj : Manifester, bopBuiltins mj .bopPercent = some todo)
  ∧ todo.function = todoFunc
  ∧ (∀ (xp yp : PotentialValue) (log : List ℕ),
        todoFunc xp yp log = (Except.error (RtError.generic "not implemented yet"), log))
  ∧ desugaredBop .bopPercent = some "mod" :=
  ⟨fun mj => rfl, rfl, fun xp yp log => rfl, rfl⟩

/-- C2 counterexample: the claim says every infinite result of `-` fails
with `Overflow`, but `builtinMinus` does not double-check: subtracting the
negated largest finite double from the largest finite double overflows to
`+Inf` and the builtin returns that infinity as an ordinary number value
instead of failing. -/
theorem claim_C2_counterexample :
    builtinMinus (.mk 1 (.ok (.num (.finite GoFloat.maxFinite))))
        (.mk 2 (.ok (.num (.finite (-GoFloat.maxFinite))))) []
      = (Except.ok (Value.num (.inf false)), [1, 2]) := by
  have h : GoFloat.sub (.finite GoFloat.maxFinite) (.finite (-GoFloat.maxFinite))
      = GoFloat.inf false := by
    simp [GoFloat.sub, GoFloat.roundF, GoFloat.maxFinite, GoFloat.overflowBound]
    norm_num
  calc builtinMinus (.mk 1 (.ok (.num (.finite GoFloat.maxFinite))))
        (.mk 2 (.ok (.num (.finite (-GoFloat.maxFinite))))) []
      = (Except.ok (Value.num (GoFloat.sub (.finite GoFloat.maxFinite)
          (.finite (-GoFloat.maxFinite)))), [1, 2]) := rfl
    _ = (Except.ok (Value.num (.inf false)), [1, 2]) := by rw [h]

/-- C2 as amended: `-`, `*`, `/`, `%` require both operands to be numbers
(a type error otherwise); `/` and `%` fail with `Division by zero.` when
the right operand is zero and double-check their result (NaN fails with
`Not a number`, an infinity with `Overflow`); but `-` and `*` perform no
double-check and return the raw IEEE result, infinite or NaN included. -/
theorem claim_C2_arithmetic :
    (∀ (ta tb : ℕ) (a b : GoFloat) (log : List ℕ),
        builtinMinus (.mk ta (.ok (.num a))) (.mk tb (.ok (.num b))) log
          = (Except.ok (Value.num (a.sub b)), log ++ [ta, tb]))
  ∧ (∀ (ta tb : ℕ) (a b : GoFloat) (log : List ℕ),
        builtinMult (.mk ta (.ok (.num a))) (.mk tb (.ok (.num b))) log
          = (Except.ok (Value.num (a.mul b)), log ++ [ta, tb]))
  ∧ (∀ (ta tb : ℕ) (a : GoFloat) (log : List ℕ),
        builtinDiv (.mk ta (.ok (.num a))) (.mk tb (.ok (.num (.finite 0)))) log
          = (Except.error (RtError.generic "Division by zero."), log ++ [ta, tb]))
  ∧ (∀ (ta tb : ℕ) (a b : GoFloat) (log : List ℕ), b.isZero = false →
        builtinDiv (.mk ta (.ok (.num a))) (.mk tb (.ok (.num b))) log
          = makeDoubleCheck (a.div b) (log ++ [ta, tb]))
  ∧ (∀ (ta tb : ℕ) (a : GoFloat) (log : List ℕ),
        builtinModulo (.mk ta (.ok (.num a))) (.mk tb (.ok (.num (.finite 0)))) log
          = (Except.error (RtError.generic "Division by zero."), log ++ [ta, tb]))
  ∧ (∀ (ta tb : ℕ) (a b : GoFloat) (log : List ℕ), b.isZero = false →
        builtinModulo (.mk ta (.ok (.num a))) (.mk tb (.ok (.num b))) log
          = makeDoubleCheck (a.mod b) (log ++ [ta, tb]))
  ∧ (∀ log : List ℕ, makeDoubleCheck .nan log
        = (Except.error (RtError.generic "Not a number"), log))
  ∧ (∀ (s : Bool) (log : List ℕ), makeDoubleCheck (.inf s) log
        = (Except.error (RtError.generic "Overflow"), log))
  ∧ (∀ (q : ℚ) (log : List ℕ), makeDoubleCheck (.finite q) log
        = (Except.ok (Value.num (.finite q)), log))
  ∧ (∀ (ta : ℕ) (v : Value) (yp : PotentialValue) (log : List ℕ), v.typename ≠ "number" →
        builtinMinus (.mk ta (.ok v)) yp log
          = (Except.error (RtError.typeSpecific "number" v.typename), log ++ [ta]))
  ∧ (∀ (ta : ℕ) (v : Value) (yp : PotentialValue) (log : List ℕ), v.typename ≠ "number" →
        builtinMult (.mk ta (.ok v)) yp log
          = (Except.error (RtError.typeSpecific "number" v.typename), log ++ [ta]))
  ∧ (∀ (ta : ℕ) (v : Value) (yp : PotentialValue) (log : List ℕ), v.typename ≠ "number" →
        builtinDiv (.mk ta (.ok v)) yp log
          = (Except.error (RtError.typeSpecific "number" v.typename), log ++ [ta]))
  ∧ (∀ (ta : ℕ) (v : Value) (yp : PotentialValue) (log : List ℕ), v.typename ≠ "number" →
        builtinModulo (.mk ta (.ok v)) yp log
          = (Except.error (RtError.typeSpecific "number" v.typename), log ++ [ta]))
  ∧ (∀ (ta tb : ℕ) (a : GoFloat) (w : Value) (log : List ℕ), w.typename ≠ "number" →
        builtinMinus (.mk ta (.ok (.num a))) (.mk tb (.ok w)) log
          = (Except.error (RtError.typeSpecific "number" w.typename), log ++ [ta, tb]))
  ∧ (∀ (ta tb : ℕ) (a : GoFloat) (w : Value) (log : List ℕ), w.typename ≠ "number" →
        builtinMult (.mk ta (.ok (.num a))) (.mk tb (.ok w)) log
          = (Except.error (RtError.typeSpecific "number" w.typename), log ++ [ta, tb]))
  ∧ (∀ (ta tb : ℕ) (a : GoFloat) (w : Value) (log : List ℕ), w.typename ≠ "number" →
        builtinDiv (.mk ta (.ok (.num a))) (.mk tb (.ok w)) log
          = (Except.error (RtError.typeSpecific "number" w.typename), log ++ [ta, tb]))
  ∧ (∀ (ta tb : ℕ) (a : GoFloat) (w : Value) (log : List ℕ), w.typename ≠ "number" →
        builtinModulo (.mk ta (.ok (.num a))) (.mk tb (.ok w)) log
          = (Except.error (RtError.typeSpecific "number" w.typename), log ++ [ta, tb])) := by
  refine ⟨?_, ?_, ?_, ?_, ?_, ?_, fun log => rfl, fun s log => rfl, fun q log => rfl,
    ?_, ?_, ?_, ?_, ?_, ?_, ?_, ?_⟩
  · intro ta tb a b log
    rw [show log ++ [ta, tb] = (log ++ [ta]) ++ [tb] by simp]
    rfl
  · intro ta tb a b log
    rw [show log ++ [ta, tb] = (log ++ [ta]) ++ [tb] by simp]
    rfl
  · intro ta tb a log
    rw [show log ++ [ta, tb] = (log ++ [ta]) ++ [tb] by simp]
    rfl
  · intro ta tb a b log h
    rw [show log ++ [ta, tb] = (log ++ [ta]) ++ [tb] by simp]
    show (if b.isZero = true then throwE (RtError.generic "Division by zero.")
          else makeDoubleCheck (a.div b)) ((log ++ [ta]) ++ [tb])
        = makeDoubleCheck (a.div b) ((log ++ [ta]) ++ [tb])
    rw [h]
    rfl
  · intro ta tb a log
    rw [show log ++ [ta, tb] = (log ++ [ta]) ++ [tb] by simp]
    rfl
  · intro ta tb a b log h
    rw [show log ++ [ta, tb] = (log ++ [ta]) ++ [tb] by simp]
    show (if b.isZero = true then throwE (RtError.generic "Division by zero.")
          else makeDoubleCheck (a.mod b)) ((log ++ [ta]) ++ [tb])
        = makeDoubleCheck (a.mod b) ((log ++ [ta]) ++ [tb])
    rw [h]
    rfl
  all_goals
    first
    | (intro ta v yp log h
       cases v with
       | num x => exact absurd rfl h
       | null => rfl
       | bool b => rfl
       | str s => rfl
       | arr es => rfl
       | func ps fid => rfl
       | obj o => rfl)
    | (intro ta tb a w log h
       rw [show log ++ [ta, tb] = (log ++ [ta]) ++ [tb] by simp]
       cases w with
       | num x => exact absurd rfl h
       | null => rfl
       | bool b => rfl
       | str s => rfl
       | arr es => rfl
       | func ps fid => rfl
       | obj o => rfl)

/-- Witness for C2: concrete runs of the nonzero-division and the
type-error cases. -/
theorem claim_C2_arithmetic_witness :
    (GoFloat.finite 2).isZero = false
  ∧ builtinDiv (.mk 1 (.ok (.num (.finite 1)))) (.mk 2 (.ok (.num (.finite 2)))) []
      = makeDoubleCheck ((GoFloat.finite 1).div (.finite 2)) [1, 2]
  ∧ Value.null.typename ≠ "number"
  ∧ builtinMinus (.mk 1 (.ok .null)) (.mk 2 (.ok .null)) []
      = (Except.error (RtError.typeSpecific "number" Value.null.typename), [1]) := by
  obtain ⟨h1, h2, h3, h4, h5, h6, h7, h8, h9, h10, hrest⟩ := claim_C2_arithmetic
  exact ⟨by decide, h4 1 2 (.finite 1) (.finite 2) [] (by decide), by decide,
    h10 1 .null (.mk 2 (.ok .null)) [] (by decide)⟩

/-- C1: the polymorphic `+`: number plus number is the numeric sum; if
either operand is a string the other is coerced through `toString`
semantics (returned unchanged if a string, else JSON-manifested, with a
manifestation error propagated) and the strings are concatenated; array
plus array concatenates the element thunks; object plus object is the
extended object in which the right operand extends the left; every other
combination is a type error. -/
theorem claim_C1_plus_polymorphic :
    (∀ (mj : Manifester) (ta tb : ℕ) (a b : GoFloat) (log : List ℕ),
        builtinPlus mj (.mk ta (.ok (.num a))) (.mk tb (.ok (.num b))) log
          = (Except.ok (Value.num (a.add b)), log ++ [ta, tb]))
  ∧ (∀ (mj : Manifester) (ta tb : ℕ) (s0 s : String) (log : List ℕ),
        builtinPlus mj (.mk ta (.ok (.str s0))) (.mk tb (.ok (.str s))) log
          = (Except.ok (Value.str (s0 ++ s)), log ++ [ta, tb, ta]))
  ∧ (∀ (mj : Manifester) (ta tb : ℕ) (v : Value) (s m : String) (log : List ℕ),
        v.typename ≠ "string" → mj v = Except.ok m →
        builtinPlus mj (.mk ta (.ok v)) (.mk tb (.ok (.str s))) log
          = (Except.ok (Value.str (m ++ s)), log ++ [ta, tb, ta]))
  ∧ (∀ (mj : Manifester) (ta tb : ℕ) (v : Value) (s : String) (er : RtError) (log : List ℕ),
        v.typename ≠ "string" → mj v = Except.error er →
        builtinPlus mj (.mk ta (.ok v)) (.mk tb (.ok (.str s))) log
          = (Except.error er, log ++ [ta, tb, ta]))
  ∧ (∀ (mj : Manifester) (ta tb : ℕ) (s0 : String) (w : Value) (m : String) (log : List ℕ),
        w.typename ≠ "string" → mj w = Except.ok m →
        builtinPlus mj (.mk ta (.ok (.str s0))) (.mk tb (.ok w)) log
          = (Except.ok (Value.str (s0 ++ m)), log ++ [ta, tb, tb]))
  ∧ (∀ (mj : Manifester) (ta tb : ℕ) (s0 : String) (w : Value) (er : RtError) (log : List ℕ),
        w.typename ≠ "string" → mj w = Except.error er →
        builtinPlus mj (.mk ta (.ok (.str s0))) (.mk tb (.ok w)) log
          = (Except.error er, log ++ [ta, tb, tb]))
  ∧ (∀ (mj : Manifester) (ta tb : ℕ) (xs ys : List PotentialValue) (log : List ℕ),
        builtinPlus mj (.mk ta (.ok (.arr xs))) (.mk tb (.ok (.arr ys))) log
          = (Except.ok (Value.arr (xs ++ ys)), log ++ [ta, tb]))
  ∧ (∀ (mj : Manifester) (ta tb : ℕ) (ol orr : ObjVal) (log : List ℕ),
        builtinPlus mj (.mk ta (.ok (.obj ol))) (.mk tb (.ok (.obj orr))) log
          = (Except.ok (Value.obj (.extended ol orr)), log ++ [ta, tb]))
  ∧ (∀ (mj : Manifester) (ta tb : ℕ) (a : GoFloat) (w : Value) (log : List ℕ),
        w.typename ≠ "number" → w.typename ≠ "string" →
        builtinPlus mj (.mk ta (.ok (.num a))) (.mk tb (.ok w)) log
          = (Except.error (RtError.typeSpecific "number" w.typename), log ++ [ta, tb]))
  ∧ (∀ (mj : Manifester) (ta tb : ℕ) (xs : List PotentialValue) (w : Value) (log : List ℕ),
        w.typename ≠ "array" → w.typename ≠ "string" →
        builtinPlus mj (.mk ta (.ok (.arr xs))) (.mk tb (.ok w)) log
          = (Except.error (RtError.typeSpecific "array" w.typename), log ++ [ta, tb]))
  ∧ (∀ (mj : Manifester) (ta tb : ℕ) (ol : ObjVal) (w : Value) (log : List ℕ),
        w.typename ≠ "object" → w.typename ≠ "string" →
        builtinPlus mj (.mk ta (.ok (.obj ol))) (.mk tb (.ok w)) log
          = (Except.error (RtError.typeSpecific "object" w.typename), log ++ [ta, tb]))
  ∧ (∀ (mj : Manifester) (ta tb : ℕ) (v w : Value) (log : List ℕ),
        v.typename ≠ "number" → v.typename ≠ "string" →
        v.typename ≠ "array" → v.typename ≠ "object" →
        w.typename ≠ "string" →
        builtinPlus mj (.mk ta (.ok v)) (.mk tb (.ok w)) log
          = (Except.error (RtError.typeGeneral v.typename), log ++ [ta, tb])) := by
  refine ⟨?_, ?_, ?_, ?_, ?_, ?_, ?_, ?_, ?_, ?_, ?_, ?_⟩
  · intro mj ta tb a b log
    rw [show log ++ [ta, tb] = (log ++ [ta]) ++ [tb] by simp]
    rfl
  · intro mj ta tb s0 s log
    rw [show log ++ [ta, tb, ta] = ((log ++ [ta]) ++ [tb]) ++ [ta] by simp]
    rfl
  · intro mj ta tb v s m log hv hm
    cases v with
    | str s1 => exact absurd rfl hv
    | null =>
        simp only [builtinPlus, builtinToString, evaluate, PotentialValue.res,
          PotentialValue.tag, Bind.bind, Monad.toBind, instMonadEvalM, ofExcept]
        rw [hm]
        simp [concatStrings]
    | bool b =>
        simp only [builtinPlus, builtinToString, evaluate, PotentialValue.res,
          PotentialValue.tag, Bind.bind, Monad.toBind, instMonadEvalM, ofExcept]
        rw [hm]
        simp [concatStrings]
    | num x =>
        simp only [builtinPlus, builtinToString, evaluate, PotentialValue.res,
          PotentialValue.tag, Bind.bind, Monad.toBind, instMonadEvalM, ofExcept]
        rw [hm]
        simp [concatStrings]
    | arr es =>
        simp only [builtinPlus, builtinToString, evaluate, PotentialValue.res,
          PotentialValue.tag, Bind.bind, Monad.toBind, instMonadEvalM, ofExcept]
        rw [hm]
        simp [concatStrings]
    | func ps fid =>
        simp only [builtinPlus, builtinToString, evaluate, PotentialValue.res,
          PotentialValue.tag, Bind.bind, Monad.toBind, instMonadEvalM, ofExcept]
        rw [hm]
        simp [concatStrings]
    | obj o =>
        simp only [builtinPlus, builtinToString, evaluate, PotentialValue.res,
          PotentialValue.tag, Bind.bind, Monad.toBind, instMonadEvalM, ofExcept]
        rw [hm]
        simp [concatStrings]
  · intro mj ta tb v s er log hv hm
    cases v with
    | str s1 => exact absurd rfl hv
    | null =>
        simp only [builtinPlus, builtinToString, evaluate, PotentialValue.res,
          PotentialValue.tag, Bind.bind, Monad.toBind, instMonadEvalM, ofExcept]
        rw [hm]
        simp [throwE]
    | bool b =>
        simp only [builtinPlus, builtinToString, evaluate, PotentialValue.res,
          PotentialValue.tag, Bind.bind, Monad.toBind, instMonadEvalM, ofExcept]
        rw [hm]
        simp [throwE]
    | num x =>
        simp only [builtinPlus, builtinToString, evaluate, PotentialValue.res,
          PotentialValue.tag, Bind.bind, Monad.toBind, instMonadEvalM, ofExcept]
        rw [hm]
        simp [throwE]
    | arr es =>
        simp only [builtinPlus, builtinToString, evaluate, PotentialValue.res,
          PotentialValue.tag, Bind.bind, Monad.toBind, instMonadEvalM, ofExcept]
        rw [hm]
        simp [throwE]
    | func ps fid =>
        simp only [builtinPlus, builtinToString, evaluate, PotentialValue.res,
          PotentialValue.tag, Bind.bind, Monad.toBind, instMonadEvalM, ofExcept]
        rw [hm]
        simp [throwE]
    | obj o =>
        simp only [builtinPlus, builtinToString, evaluate, PotentialValue.res,
          PotentialValue.tag, Bind.bind, Monad.toBind, instMonadEvalM, ofExcept]
        rw [hm]
        simp [throwE]
  · intro mj ta tb s0 w m log hw hm
    cases w with
    | str s1 => exact absurd rfl hw
    | null =>
        simp only [builtinPlus, builtinToString, evaluate, PotentialValue.res,
          PotentialValue.tag, Bind.bind, Monad.toBind, instMonadEvalM, ofExcept]
        rw [hm]
        simp [concatStrings]
    | bool b =>
        simp only [builtinPlus, builtinToString, evaluate, PotentialValue.res,
          PotentialValue.tag, Bind.bind, Monad.toBind, instMonadEvalM, ofExcept]
        rw [hm]
        simp [concatStrings]
    | num x =>
        simp only [builtinPlus, builtinToString, evaluate, PotentialValue.res,
          PotentialValue.tag, Bind.bind, Monad.toBind, instMonadEvalM, ofExcept]
        rw [hm]
        simp [concatStrings]
    | arr es =>
        simp only [builtinPlus, builtinToString, evaluate, PotentialValue.res,
          PotentialValue.tag, Bind.bind, Monad.toBind, instMonadEvalM, ofExcept]
        rw [hm]
        simp [concatStrings]
    | func ps fid =>
        simp only [builtinPlus, builtinToString, evaluate, PotentialValue.res,
          PotentialValue.tag, Bind.bind, Monad.toBind, instMonadEvalM, ofExcept]
        rw [hm]
        simp [concatStrings]
    | obj o =>
        simp only [builtinPlus, builtinToString, evaluate, PotentialValue.res,
          PotentialValue.tag, Bind.bind, Monad.toBind, instMonadEvalM, ofExcept]
        rw [hm]
        simp [concatStrings]
  · intro mj ta tb s0 w er log hw hm
    cases w with
    | str s1 => exact absurd rfl hw
    | null =>
        simp only [builtinPlus, builtinToString, evaluate, PotentialValue.res,
          PotentialValue.tag, Bind.bind, Monad.toBind, instMonadEvalM, ofExcept]
        rw [hm]
        simp [throwE]
    | bool b =>
        simp only [builtinPlus, builtinToString, evaluate, PotentialValue.res,
          PotentialValue.tag, Bind.bind, Monad.toBind, instMonadEvalM, ofExcept]
        rw [hm]
        simp [throwE]
    | num x =>
        simp only [builtinPlus, builtinToString, evaluate, PotentialValue.res,
          PotentialValue.tag, Bind.bind, Monad.toBind, instMonadEvalM, ofExcept]
        rw [hm]
        simp [throwE]
    | arr es =>
        simp only [builtinPlus, builtinToString, evaluate, PotentialValue.res,
          PotentialValue.tag, Bind.bind, Monad.toBind, instMonadEvalM, ofExcept]
        rw [hm]
        simp [throwE]
    | func ps fid =>
        simp only [builtinPlus, builtinToString, evaluate, PotentialValue.res,
          PotentialValue.tag, Bind.bind, Monad.toBind, instMonadEvalM, ofExcept]
        rw [hm]
        simp [throwE]
    | obj o =>
        simp only [builtinPlus, builtinToString, evaluate, PotentialValue.res,
          PotentialValue.tag, Bind.bind, Monad.toBind, instMonadEvalM, ofExcept]
        rw [hm]
        simp [throwE]
  · intro mj ta tb xs ys log
    rw [show log ++ [ta, tb] = (log ++ [ta]) ++ [tb] by simp]
    rfl
  · intro mj ta tb ol orr log
    rw [show log ++ [ta, tb] = (log ++ [ta]) ++ [tb] by simp]
    rfl
  · intro mj ta tb a w log hw1 hw2
    rw [show log ++ [ta, tb] = (log ++ [ta]) ++ [tb] by simp]
    cases w with
    | num x => exact absurd rfl hw1
    | str s => exact absurd rfl hw2
    | null => rfl
    | bool b => rfl
    | arr es => rfl
    | func ps fid => rfl
    | obj o => rfl
  · intro mj ta tb xs w log hw1 hw2
    rw [show log ++ [ta, tb] = (log ++ [ta]) ++ [tb] by simp]
    cases w with
    | arr es => exact absurd rfl hw1
    | str s => exact absurd rfl hw2
    | null => rfl
    | bool b => rfl
    | num x => rfl
    | func ps fid => rfl
    | obj o => rfl
  · intro mj ta tb ol w log hw1 hw2
    rw [show log ++ [ta, tb] = (log ++ [ta]) ++ [tb] by simp]
    cases w with
    | obj o => exact absurd rfl hw1
    | str s => exact absurd rfl hw2
    | null => rfl
    | bool b => rfl
    | num x => rfl
    | arr es => rfl
    | func ps fid => rfl
  · intro mj ta tb v w log hv1 hv2 hv3 hv4 hw
    rw [show log ++ [ta, tb] = (log ++ [ta]) ++ [tb] by simp]
    cases v with
    | num x => exact absurd rfl hv1
    | str s => exact absurd rfl hv2
    | arr es => exact absurd rfl hv3
    | obj o => exact absurd rfl hv4
    | null => cases w with
      | str s => exact absurd rfl hw
      | null => rfl
      | bool b => rfl
      | num x => rfl
      | arr es => rfl
      | func ps fid => rfl
      | obj o => rfl
    | bool b0 => cases w with
      | str s => exact absurd rfl hw
      | null => rfl
      | bool b => rfl
      | num x => rfl
      | arr es => rfl
      | func ps fid => rfl
      | obj o => rfl
    | func ps0 fid0 => cases w with
      | str s => exact absurd rfl hw
      | null => rfl
      | bool b => rfl
      | num x => rfl
      | arr es => rfl
      | func ps fid => rfl
      | obj o => rfl

/-- Witness for C1: concrete runs of the string-coercion and the type-error
cases. -/
theorem claim_C1_plus_polymorphic_witness :
    Value.null.typename ≠ "string"
  ∧ (fun _ : Value => Except.ok (ε := RtError) "null") Value.null = Except.ok "null"
  ∧ builtinPlus (fun _ => Except.ok "null") (.mk 1 (.ok .null)) (.mk 2 (.ok (.str "!"))) []
      = (Except.ok (Value.str ("null" ++ "!")), [1, 2, 1])
  ∧ (Value.bool true).typename ≠ "number"
  ∧ builtinPlus (fun _ => Except.ok "")
        (.mk 1 (.ok (.num (.finite 1)))) (.mk 2 (.ok (.bool true))) []
      = (Except.error (RtError.typeSpecific "number" (Value.bool true).typename), [1, 2]) := by
  refine ⟨by decide, rfl, ?_, by decide, ?_⟩
  · exact claim_C1_plus_polymorphic.2.2.1 (fun _ => Except.ok "null") 1 2 .null "!" "null" []
      (by decide) rfl
  · exact (claim_C1_plus_polymorphic.2.2.2.2.2.2.2.2.1) (fun _ => Except.ok "") 1 2
      (.finite 1) (.bool true) [] (by decide) (by decide)

/-- C9: `primitiveEquals` returns false without an error whenever the two
forced values have different typenames (so also when exactly one of them is
a function); the function-equality error is raised only when both are
functions, and the non-primitive error only when both share a non-primitive
typename (array or object). -/
theorem claim_C9_primitive_equals :
    (∀ (ta tb : ℕ) (v w : Value) (log : List ℕ), v.typename ≠ w.typename →
        primitiveEquals (.mk ta (.ok v)) (.mk tb (.ok w)) log
          = (Except.ok (Value.bool false), log ++ [ta, tb]))
  ∧ (∀ (ta tb : ℕ) (ps : List String) (fid : ℕ) (qs : List String) (gid : ℕ) (log : List ℕ),
        primitiveEquals (.mk ta (.ok (.func ps fid))) (.mk tb (.ok (.func qs gid))) log
          = (Except.error (RtError.generic "Cannot test equality of functions"), log ++ [ta, tb]))
  ∧ (∀ (ta tb : ℕ) (xs ys : List PotentialValue) (log : List ℕ),
        primitiveEquals (.mk ta (.ok (.arr xs))) (.mk tb (.ok (.arr ys))) log
          = (Except.error (RtError.generic "primitiveEquals operates on primitive types, got array"),
             log ++ [ta, tb]))
  ∧ (∀ (ta tb : ℕ) (o p : ObjVal) (log : List ℕ),
        primitiveEquals (.mk ta (.ok (.obj o))) (.mk tb (.ok (.obj p))) log
          = (Except.error (RtError.generic "primitiveEquals operates on primitive types, got object"),
             log ++ [ta, tb])) := by
  refine ⟨?_, ?_, ?_, ?_⟩
  · intro ta tb v w log h
    rw [show log ++ [ta, tb] = (log ++ [ta]) ++ [tb] by simp]
    simp only [primitiveEquals, evaluate, PotentialValue.res, PotentialValue.tag,
      Bind.bind, Monad.toBind, instMonadEvalM]
    split
    · rfl
    · next hc => exact absurd h hc
  · intro ta tb ps fid qs gid log
    rw [show log ++ [ta, tb] = (log ++ [ta]) ++ [tb] by simp]
    rfl
  · intro ta tb xs ys log
    rw [show log ++ [ta, tb] = (log ++ [ta]) ++ [tb] by simp]
    rfl
  · intro ta tb o p log
    rw [show log ++ [ta, tb] = (log ++ [ta]) ++ [tb] by simp]
    rfl

/-- Witness for C9: a number compared with a function is false, not an
error. -/
theorem claim_C9_primitive_equals_witness :
    (Value.num (.finite 1)).typename ≠ (Value.func ["x"] 0).typename
  ∧ primitiveEquals (.mk 1 (.ok (.num (.finite 1)))) (.mk 2 (.ok (.func ["x"] 0))) []
      = (Except.ok (Value.bool false), [1, 2]) :=
  ⟨by decide, claim_C9_primitive_equals.1 1 2 (.num (.finite 1)) (.func ["x"] 0) [] (by decide)⟩

/-- Truncating a rational below one toward zero gives a non-positive
integer, hence `toNat` zero. -/
theorem truncQ_toNat_eq_zero (q : ℚ) (hq : q < 1) : (GoFloat.truncQ q).toNat = 0 := by
  unfold GoFloat.truncQ
  split
  · next h0 =>
      rw [Int.floor_eq_zero_iff.mpr ⟨h0, hq⟩]
      rfl
  · next h0 =>
      refine Int.toNat_of_nonpos (Int.ceil_le.mpr ?_)
      exact_mod_cast le_of_lt (lt_of_not_ge h0)

/-- C10: `makeArray(n, f)` truncates the forced size toward zero to an
integer `k` and returns the array of exactly `max(k, 0)` call thunks, the
`i`-th being the invocation of `f` on the ready value `i`; in particular
every size below one yields the empty array without an error. -/
theorem claim_C10_make_array :
    (∀ (call : FuncCall) (ta tb : ℕ) (q : ℚ) (ps : List String) (fid : ℕ) (log : List ℕ),
        builtinMakeArray call (.mk ta (.ok (.num (.finite q)))) (.mk tb (.ok (.func ps fid))) log
          = (Except.ok (Value.arr ((List.range (GoFloat.truncQ q).toNat).map
              (fun i => call (ps, fid) [readyValue (intToValue i)]))), log ++ [ta, tb]))
  ∧ (∀ q : ℚ, (((GoFloat.truncQ q).toNat : ℤ)) = max (GoFloat.truncQ q) 0)
  ∧ (∀ q : ℚ, q < 1 → (GoFloat.truncQ q).toNat = 0)
  ∧ (∀ (call : FuncCall) (ta tb : ℕ) (q : ℚ) (ps : List String) (fid : ℕ) (log : List ℕ),
        q < 1 →
        builtinMakeArray call (.mk ta (.ok (.num (.finite q)))) (.mk tb (.ok (.func ps fid))) log
          = (Except.ok (Value.arr []), log ++ [ta, tb])) := by
  refine ⟨?_, fun q => Int.toNat_eq_max _, fun q hq => truncQ_toNat_eq_zero q hq, ?_⟩
  · intro call ta tb q ps fid log
    rw [show log ++ [ta, tb] = (log ++ [ta]) ++ [tb] by simp]
    rfl
  · intro call ta tb q ps fid log hq
    rw [show log ++ [ta, tb] = (log ++ [ta]) ++ [tb] by simp]
    calc builtinMakeArray call (.mk ta (.ok (.num (.finite q))))
          (.mk tb (.ok (.func ps fid))) log
        = (Except.ok (Value.arr ((List.range (GoFloat.truncQ q).toNat).map
            (fun i => call (ps, fid) [readyValue (intToValue i)]))),
           (log ++ [ta]) ++ [tb]) := rfl
      _ = (Except.ok (Value.arr []), (log ++ [ta]) ++ [tb]) := by
          rw [truncQ_toNat_eq_zero q hq]
          rfl

/-- Witness for C10: a negative fractional size yields the empty array. -/
theorem claim_C10_make_array_witness :
    ((-5 : ℚ) / 2) < 1
  ∧ builtinMakeArray (fun _ _ => readyValue .null)
        (.mk 1 (.ok (.num (.finite ((-5 : ℚ) / 2))))) (.mk 2 (.ok (.func ["i"] 0))) []
      = (Except.ok (Value.arr []), [1, 2]) :=
  ⟨by norm_num,
   claim_C10_make_array.2.2.2 (fun _ _ => readyValue .null) 1 2 ((-5 : ℚ) / 2) ["i"] 0 []
     (by norm_num)⟩

/-- Field lookup finds a visible definition exactly when the name is among
the enumerated field names (right-to-left walk versus union
enumeration). -/
theorem tryObjectIndex_isSome (o : ObjVal) (name : String) (h : Hidden) :
    (tryObjectIndex o name h).isSome = decide (name ∈ objectFields o h) := by
  match o with
  | .simple up fs as =>
      rw [Bool.eq_iff_iff]
      simp only [decide_eq_true_eq, tryObjectIndex, objectFields]
      induction fs with
      | nil => simp
      | cons f rest ih =>
          simp only [List.findSome?_cons, List.filter_cons]
          by_cases hv : fieldVisible h f.2.1 = true
          · by_cases hn : f.1 = name
            · simp [hn, hv]
            · have hn' : ¬ name = f.1 := fun hh => hn hh.symm
              simp [hn, hn', hv, ih]
          · simp [hv, ih]
  | .extended l r =>
      have ihl := tryObjectIndex_isSome l name h
      have ihr := tryObjectIndex_isSome r name h
      rw [Bool.eq_iff_iff] at ihl ihr ⊢
      simp only [decide_eq_true_eq] at ihl ihr ⊢
      simp only [tryObjectIndex, objectFields]
      cases hr : tryObjectIndex r name h with
      | some f =>
          rw [hr] at ihr
          simp only [Option.isSome_some, true_iff] at ihr
          simp [Option.orElse, List.mem_append, List.mem_filter, ihr]
          tauto
      | none =>
          rw [hr] at ihr
          simp only [Option.isSome_none, false_iff] at ihr
          simp [Option.orElse, List.mem_append, List.mem_filter, ihr, ihl]
          tauto

/-- C5: `objectFieldsEx(o, h)` returns the array of the field-name strings
of `o` — for a simple object all names exactly when `h` is true and the
non-hidden ones when it is false — sorted ascending (the sorted list is a
permutation of the enumerated names); and `objectHasEx(o, name, h)` returns
true exactly when `name` is one of those enumerated field names. -/
theorem claim_C5_object_introspection :
    (∀ (ta tb : ℕ) (o : ObjVal) (b : Bool) (log : List ℕ),
        builtinObjectFieldsEx (.mk ta (.ok (.obj o))) (.mk tb (.ok (.bool b))) log
          = (Except.ok (Value.arr ((sortStrings (objectFields o (withHiddenFromBool b))).map
              (fun n => readyValue (.str n)))), log ++ [ta, tb]))
  ∧ (∀ (o : ObjVal) (h : Hidden),
        List.Sorted (fun a b : String => a ≤ b) (sortStrings (objectFields o h)))
  ∧ (∀ (o : ObjVal) (h : Hidden) (n : String),
        n ∈ sortStrings (objectFields o h) ↔ n ∈ objectFields o h)
  ∧ (∀ (up : List (String × PotentialValue)) (fs : List (String × Hide × UnboundField))
        (as : List UnboundField),
        objectFields (.simple up fs as) (withHiddenFromBool true) = fs.map Prod.fst)
  ∧ (∀ (up : List (String × PotentialValue)) (fs : List (String × Hide × UnboundField))
        (as : List UnboundField),
        objectFields (.simple up fs as) (withHiddenFromBool false)
          = (fs.filter (fun f => decide (f.2.1 ≠ .hidden))).map Prod.fst)
  ∧ (∀ (ta tb tc : ℕ) (o : ObjVal) (n : String) (b : Bool) (log : List ℕ),
        builtinObjectHasEx (.mk ta (.ok (.obj o))) (.mk tb (.ok (.str n)))
            (.mk tc (.ok (.bool b))) log
          = (Except.ok (Value.bool (decide (n ∈ objectFields o (withHiddenFromBool b)))),
             log ++ [ta, tb, tc])) := by
  refine ⟨?_, ?_, ?_, ?_, ?_, ?_⟩
  · intro ta tb o b log
    rw [show log ++ [ta, tb] = (log ++ [ta]) ++ [tb] by simp]
    rfl
  · intro o h
    exact List.sorted_insertionSort _ _
  · intro o h n
    exact (List.perm_insertionSort _ _).mem_iff
  · intro up fs as
    simp [objectFields, fieldVisible, withHiddenFromBool]
  · intro up fs as
    simp [objectFields, fieldVisible, withHiddenFromBool]
  · intro ta tb tc o n b log
    rw [show log ++ [ta, tb, tc] = ((log ++ [ta]) ++ [tb]) ++ [tc] by simp]
    calc builtinObjectHasEx (.mk ta (.ok (.obj o))) (.mk tb (.ok (.str n)))
          (.mk tc (.ok (.bool b))) log
        = (Except.ok (Value.bool (tryObjectIndex o n (withHiddenFromBool b)).isSome),
           ((log ++ [ta]) ++ [tb]) ++ [tc]) := rfl
      _ = _ := by rw [tryObjectIndex_isSome]

/-- A concrete simple-object input to `$objectFlatMerge`: its thunk tag,
captured upvalues, field table and assertions. -/
structure SimpleObjRep where
  tag : ℕ
  upValues : List (String × PotentialValue)
  fields : List (String × Hide × UnboundField)
  asserts : List UnboundField

/-- The thunk forcing to the represented simple object. -/
def SimpleObjRep.toPV (o : SimpleObjRep) : PotentialValue :=
  .mk o.tag (.ok (.obj (.simple o.upValues o.fields o.asserts)))

/-- The object's field table as copied by the merge: each unbound field
wrapped in a `bindingsUnboundField` carrying the object's upvalues. -/
def SimpleObjRep.wrapped (o : SimpleObjRep) : List (String × Hide × UnboundField) :=
  o.fields.map (fun f => (f.1, f.2.1, .bindings f.2.2 o.upValues))

/-- All field names of a list of simple objects, in order. -/
def mergedNames (objs : List SimpleObjRep) : List String :=
  (objs.map (fun o => o.fields.map Prod.fst)).flatten

/-- The union field table the merge should produce. -/
def mergedFields (objs : List SimpleObjRep) : List (String × Hide × UnboundField) :=
  (objs.map SimpleObjRep.wrapped).flatten

/-- The field-copying loop succeeds on disjoint names, appending the
wrapped fields. -/
theorem flatMergeFields_ok (up : List (String × PotentialValue)) :
    ∀ (fs acc : List (String × Hide × UnboundField)),
    (acc.map Prod.fst ++ fs.map Prod.fst).Nodup →
    flatMergeFields up acc fs
      = Except.ok (acc ++ fs.map (fun f => (f.1, f.2.1, UnboundField.bindings f.2.2 up))) := by
  intro fs
  induction fs with
  | nil => intro acc h; simp [flatMergeFields]
  | cons f rest ih =>
      intro acc h
      obtain ⟨fn, fv⟩ := f
      simp only [List.map_cons] at h
      have hf : fn ∉ acc.map Prod.fst := by
        intro hmem
        exact (List.nodup_append.mp h).2.2 hmem (List.mem_cons_self _ _)
      have hany : (acc.any fun g => g.1 = fn) = false := by
        simp only [List.any_eq_false, decide_eq_true_eq]
        intro g hg hgn
        exact hf (List.mem_map.mpr ⟨g, hg, hgn⟩)
      have h' : ((acc ++ [(fn, fv.1, UnboundField.bindings fv.2 up)]).map Prod.fst
          ++ rest.map Prod.fst).Nodup := by
        simpa [List.append_assoc] using h
      simp only [flatMergeFields, hany, Bool.false_eq_true, if_false, ih _ h']
      simp

/-- The field-copying loop fails with the duplicate-field error on a
repeated name. -/
theorem flatMergeFields_dup (up : List (String × PotentialValue)) :
    ∀ (fs acc : List (String × Hide × UnboundField)),
    (acc.map Prod.fst).Nodup →
    ¬ (acc.map Prod.fst ++ fs.map Prod.fst).Nodup →
    ∃ n, flatMergeFields up acc fs = Except.error (.generic (duplicateFieldNameErrMsg n)) := by
  intro fs
  induction fs with
  | nil =>
      intro acc h1 h2
      simp at h2
      exact absurd h1 h2
  | cons f rest ih =>
      intro acc h1 h2
      obtain ⟨fn, fv⟩ := f
      by_cases hf : fn ∈ acc.map Prod.fst
      · have hany : (acc.any fun g => g.1 = fn) = true := by
          simp only [List.any_eq_true, decide_eq_true_eq]
          obtain ⟨g, hg, hgn⟩ := List.mem_map.mp hf
          exact ⟨g, hg, hgn⟩
        refine ⟨fn, ?_⟩
        simp [flatMergeFields, hany]
      · have hany : (acc.any fun g => g.1 = fn) = false := by
          simp only [List.any_eq_false, decide_eq_true_eq]
          intro g hg hgn
          exact hf (List.mem_map.mpr ⟨g, hg, hgn⟩)
        have h1' : ((acc ++ [(fn, fv.1, UnboundField.bindings fv.2 up)]).map Prod.fst).Nodup := by
          simp only [List.map_append]
          simp [List.nodup_append, h1, hf]
        have h2' : ¬ (((acc ++ [(fn, fv.1, UnboundField.bindings fv.2 up)]).map Prod.fst)
            ++ rest.map Prod.fst).Nodup := by
          intro hc
          apply h2
          simpa [List.append_assoc] using hc
        obtain ⟨n, hn⟩ := ih _ h1' h2'
        refine ⟨n, ?_⟩
        simp only [flatMergeFields, hany, Bool.false_eq_true, if_false]
        exact hn

/-- The merge loop over the forced objects succeeds on globally disjoint
names, forcing each element in order. -/
theorem flatMergeLoop_ok :
    ∀ (objs : List SimpleObjRep) (acc : List (String × Hide × UnboundField)) (log : List ℕ),
    (acc.map Prod.fst ++ mergedNames objs).Nodup →
    flatMergeLoop (objs.map SimpleObjRep.toPV) acc log
      = (Except.ok (acc ++ mergedFields objs), log ++ objs.map SimpleObjRep.tag) := by
  intro objs
  induction objs with
  | nil =>
      intro acc log h
      calc flatMergeLoop ([].map SimpleObjRep.toPV) acc log = (Except.ok acc, log) := rfl
        _ = (Except.ok (acc ++ mergedFields []), log ++ [].map SimpleObjRep.tag) := by
            simp [mergedFields]
  | cons o rest ih =>
      intro acc log h
      have h1 : (acc.map Prod.fst ++ o.fields.map Prod.fst).Nodup := by
        have := h
        simp only [mergedNames, List.map_cons, List.flatten_cons, ← List.append_assoc] at this
        exact this.of_append_left
      have happly := flatMergeFields_ok o.upValues o.fields acc h1
      have h2 : ((acc ++ o.fields.map (fun f => (f.1, f.2.1, UnboundField.bindings f.2.2
          o.upValues))).map Prod.fst ++ mergedNames rest).Nodup := by
        simp only [List.map_append, List.map_map]
        have hmapfst : (o.fields.map (fun f => (f.1, f.2.1, UnboundField.bindings f.2.2
            o.upValues))).map Prod.fst = o.fields.map Prod.fst := by
          simp [List.map_map, Function.comp]
        simp only [List.map_append, hmapfst, List.append_assoc] at *
        simpa [mergedNames, List.map_map] using h
      calc flatMergeLoop ((o :: rest).map SimpleObjRep.toPV) acc log
          = (match flatMergeFields o.upValues acc o.fields with
             | Except.ok acc2 => flatMergeLoop (rest.map SimpleObjRep.toPV) acc2
             | Except.error er => throwE er) (log ++ [o.tag]) := rfl
        _ = flatMergeLoop (rest.map SimpleObjRep.toPV)
              (acc ++ o.fields.map (fun f => (f.1, f.2.1, UnboundField.bindings f.2.2 o.upValues)))
              (log ++ [o.tag]) := by rw [happly]
        _ = (Except.ok ((acc ++ o.fields.map (fun f => (f.1, f.2.1, UnboundField.bindings f.2.2
              o.upValues))) ++ mergedFields rest), (log ++ [o.tag]) ++ rest.map SimpleObjRep.tag) :=
            ih _ _ h2
        _ = (Except.ok (acc ++ mergedFields (o :: rest)), log ++ (o :: rest).map SimpleObjRep.tag) := by
            simp [mergedFields, SimpleObjRep.wrapped, List.append_assoc]

/-- The merge loop fails with the duplicate-field error when a name
repeats. -/
theorem flatMergeLoop_dup :
    ∀ (objs : List SimpleObjRep) (acc : List (String × Hide × UnboundField)) (log : List ℕ),
    (acc.map Prod.fst).Nodup →
    ¬ (acc.map Prod.fst ++ mergedNames objs).Nodup →
    ∃ n lg, flatMergeLoop (objs.map SimpleObjRep.toPV) acc log
      = (Except.error (.generic (duplicateFieldNameErrMsg n)), lg) := by
  intro objs
  induction objs with
  | nil =>
      intro acc log h1 h2
      simp [mergedNames] at h2
      exact absurd h1 h2
  | cons o rest ih =>
      intro acc log h1 h2
      by_cases hpre : (acc.map Prod.fst ++ o.fields.map Prod.fst).Nodup
      · have happly := flatMergeFields_ok o.upValues o.fields acc hpre
        have h1' : ((acc ++ o.fields.map (fun f => (f.1, f.2.1, UnboundField.bindings f.2.2
            o.upValues))).map Prod.fst).Nodup := by
          have hmapfst : (o.fields.map (fun f => (f.1, f.2.1, UnboundField.bindings f.2.2
              o.upValues))).map Prod.fst = o.fields.map Prod.fst := by
            simp [List.map_map, Function.comp]
          simpa [List.map_append, hmapfst] using hpre
        have h2' : ¬ (((acc ++ o.fields.map (fun f => (f.1, f.2.1, UnboundField.bindings f.2.2
            o.upValues))).map Prod.fst) ++ mergedNames rest).Nodup := by
          have hmapfst : (o.fields.map (fun f => (f.1, f.2.1, UnboundField.bindings f.2.2
              o.upValues))).map Prod.fst = o.fields.map Prod.fst := by
            simp [List.map_map, Function.comp]
          intro hc
          apply h2
          simp only [List.map_append, hmapfst, List.append_assoc] at hc
          simpa [mergedNames, List.map_map] using hc
        obtain ⟨n, lg, hn⟩ := ih _ (log ++ [o.tag]) h1' h2'
        refine ⟨n, lg, ?_⟩
        calc flatMergeLoop ((o :: rest).map SimpleObjRep.toPV) acc log
            = (match flatMergeFields o.upValues acc o.fields with
               | Except.ok acc2 => flatMergeLoop (rest.map SimpleObjRep.toPV) acc2
               | Except.error er => throwE er) (log ++ [o.tag]) := rfl
          _ = flatMergeLoop (rest.map SimpleObjRep.toPV)
                (acc ++ o.fields.map (fun f => (f.1, f.2.1, UnboundField.bindings f.2.2
                  o.upValues))) (log ++ [o.tag]) := by rw [happly]
          _ = (Except.error (.generic (duplicateFieldNameErrMsg n)), lg) := hn
      · obtain ⟨n, hn⟩ := flatMergeFields_dup o.upValues o.fields acc h1 hpre
        refine ⟨n, log ++ [o.tag], ?_⟩
        calc flatMergeLoop ((o :: rest).map SimpleObjRep.toPV) acc log
            = (match flatMergeFields o.upValues acc o.fields with
               | Except.ok acc2 => flatMergeLoop (rest.map SimpleObjRep.toPV) acc2
               | Except.error er => throwE er) (log ++ [o.tag]) := rfl
          _ = (Except.error (.generic (duplicateFieldNameErrMsg n)), log ++ [o.tag]) := by
              rw [hn]
              rfl

/-- C6: `$objectFlatMerge` on an array of simple objects: an empty array
yields the empty simple object; with globally distinct field names it
yields a simple object whose field table is the ordered union of the
inputs' tables, each field keeping its hide flag and its unbound field
wrapped in a `bindingsUnboundField` carrying its object's upvalues, with no
binding frame and no assertions; a repeated field name fails with the
`duplicate field name` error. -/
theorem claim_C6_flat_merge :
    (∀ (ta : ℕ) (log : List ℕ),
        builtinUglyObjectFlatMerge (.mk ta (.ok (.arr []))) log
          = (Except.ok (Value.obj (.simple [] [] [])), log ++ [ta]))
  ∧ (∀ o : SimpleObjRep, o.wrapped
        = o.fields.map (fun f => (f.1, f.2.1, UnboundField.bindings f.2.2 o.upValues)))
  ∧ (∀ (ta : ℕ) (objs : List SimpleObjRep) (log : List ℕ),
        (mergedNames objs).Nodup →
        builtinUglyObjectFlatMerge (.mk ta (.ok (.arr (objs.map SimpleObjRep.toPV)))) log
          = (Except.ok (Value.obj (.simple [] (mergedFields objs) [])),
             (log ++ [ta]) ++ objs.map SimpleObjRep.tag))
  ∧ (∀ (ta : ℕ) (objs : List SimpleObjRep) (log : List ℕ),
        ¬ (mergedNames objs).Nodup →
        ∃ n lg, builtinUglyObjectFlatMerge (.mk ta (.ok (.arr (objs.map SimpleObjRep.toPV)))) log
          = (Except.error (RtError.generic (duplicateFieldNameErrMsg n)), lg)) := by
  refine ⟨fun ta log => rfl, fun o => rfl, ?_, ?_⟩
  · intro ta objs log h
    cases objs with
    | nil =>
        calc builtinUglyObjectFlatMerge (.mk ta (.ok (.arr ([].map SimpleObjRep.toPV)))) log
            = (Except.ok (Value.obj (.simple [] [] [])), log ++ [ta]) := rfl
          _ = (Except.ok (Value.obj (.simple [] (mergedFields []) [])),
               (log ++ [ta]) ++ [].map SimpleObjRep.tag) := by simp [mergedFields]
    | cons o rest =>
        have h' : (([] : List (String × Hide × UnboundField)).map Prod.fst
            ++ mergedNames (o :: rest)).Nodup := by simpa using h
        have hl := flatMergeLoop_ok (o :: rest) [] (log ++ [ta]) h'
        simp only [builtinUglyObjectFlatMerge, evaluateArray, evaluate, PotentialValue.res,
          PotentialValue.tag, getArray, ofExcept, Bind.bind, Monad.toBind, instMonadEvalM,
          List.map_cons, List.isEmpty_cons, Bool.false_eq_true, if_false]
        simp only [List.map_cons] at hl
        rw [hl]
        rfl
  · intro ta objs log h
    cases objs with
    | nil => exact absurd (by simp [mergedNames]) h
    | cons o rest =>
        have h' : ¬ (([] : List (String × Hide × UnboundField)).map Prod.fst
            ++ mergedNames (o :: rest)).Nodup := by simpa using h
        obtain ⟨n, lg, hn⟩ := flatMergeLoop_dup (o :: rest) [] (log ++ [ta]) (by simp) h'
        refine ⟨n, lg, ?_⟩
        simp only [builtinUglyObjectFlatMerge, evaluateArray, evaluate, PotentialValue.res,
          PotentialValue.tag, getArray, ofExcept, Bind.bind, Monad.toBind, instMonadEvalM,
          List.map_cons, List.isEmpty_cons, Bool.false_eq_true, if_false]
        simp only [List.map_cons] at hn
        rw [hn]

/-- Witness for C6: merging two disjoint simple objects succeeds with the
wrapped union table; two objects sharing the name `a` fail with the
duplicate-field error. -/
theorem claim_C6_flat_merge_witness :
    (mergedNames [⟨1, [], [("a", Hide.inherit, UnboundField.plain 0)], []⟩,
        ⟨2, [("u", readyValue .null)], [("b", Hide.hidden, UnboundField.plain 1)], []⟩]).Nodup
  ∧ builtinUglyObjectFlatMerge (.mk 9 (.ok (.arr
        (([⟨1, [], [("a", Hide.inherit, UnboundField.plain 0)], []⟩,
           ⟨2, [("u", readyValue .null)], [("b", Hide.hidden, UnboundField.plain 1)], []⟩]
          : List SimpleObjRep).map SimpleObjRep.toPV)))) []
      = (Except.ok (Value.obj (.simple []
          (mergedFields [⟨1, [], [("a", Hide.inherit, UnboundField.plain 0)], []⟩,
            ⟨2, [("u", readyValue .null)], [("b", Hide.hidden, UnboundField.plain 1)], []⟩]) [])),
         (([] : List ℕ) ++ [9]) ++ ([⟨1, [], [("a", Hide.inherit, UnboundField.plain 0)], []⟩,
            ⟨2, [("u", readyValue .null)], [("b", Hide.hidden, UnboundField.plain 1)], []⟩]
           : List SimpleObjRep).map SimpleObjRep.tag)
  ∧ mergedFields [⟨1, [], [("a", Hide.inherit, UnboundField.plain 0)], []⟩,
        ⟨2, [("u", readyValue .null)], [("b", Hide.hidden, UnboundField.plain 1)], []⟩]
      = [("a", Hide.inherit, .bindings (.plain 0) []),
         ("b", Hide.hidden, .bindings (.plain 1) [("u", readyValue .null)])]
  ∧ ¬ (mergedNames [⟨1, [], [("a", Hide.inherit, UnboundField.plain 0)], []⟩,
        ⟨2, [], [("a", Hide.visible, UnboundField.plain 1)], []⟩]).Nodup
  ∧ ∃ n lg, builtinUglyObjectFlatMerge (.mk 9 (.ok (.arr
        (([⟨1, [], [("a", Hide.inherit, UnboundField.plain 0)], []⟩,
           ⟨2, [], [("a", Hide.visible, UnboundField.plain 1)], []⟩]
          : List SimpleObjRep).map SimpleObjRep.toPV)))) []
      = (Except.error (RtError.generic (duplicateFieldNameErrMsg n)), lg) := by
  refine ⟨?_, ?_, rfl, ?_, ?_⟩
  · decide
  · exact claim_C6_flat_merge.2.2.1 9
      [⟨1, [], [("a", Hide.inherit, UnboundField.plain 0)], []⟩,
       ⟨2, [("u", readyValue .null)], [("b", Hide.hidden, UnboundField.plain 1)], []⟩] []
      (by decide)
  · decide
  · exact claim_C6_flat_merge.2.2.2 9
      [⟨1, [], [("a", Hide.inherit, UnboundField.plain 0)], []⟩,
       ⟨2, [], [("a", Hide.visible, UnboundField.plain 1)], []⟩] []
      (by decide)

/-- One visit step: given the node's characterization, the error flag after
`visitNext` is the incoming flag or the node's violation. -/
theorem visitNext_err (a : AST) (inObject : Bool) (vars : List String) (s : AnalysisState)
    (ha : ∀ (io : Bool) (v : List String),
      (analyzeVisit a io v).1.isSome = hasStaticViolation a io v) :
    (visitNext a inObject vars s).err.isSome
      = (s.err.isSome || hasStaticViolation a inObject vars) := by
  cases hs : s.err.isSome with
  | true => simp [visitNext, hs]
  | false => simp [visitNext, hs, ha]

/-- The list-visiting loop accumulates the disjunction of the children's
violations into the error flag. -/
theorem visitList_err (inObject : Bool) (vars : List String) :
    ∀ (l : List AST),
    (∀ a ∈ l, ∀ (io : Bool) (v : List String),
      (analyzeVisit a io v).1.isSome = hasStaticViolation a io v) →
    ∀ s : AnalysisState, (visitList l inObject vars s).err.isSome
      = (s.err.isSome || anyViolation l inObject vars) := by
  intro l
  induction l with
  | nil => intro hl s; simp [visitList, anyViolation]
  | cons a rest ih =>
      intro hl s
      have ha := hl a (List.mem_cons_self _ _)
      calc (visitList (a :: rest) inObject vars s).err.isSome
          = (visitList rest inObject vars (visitNext a inObject vars s)).err.isSome := by
            simp only [visitList]
        _ = ((visitNext a inObject vars s).err.isSome || anyViolation rest inObject vars) :=
            ih (fun x hx => hl x (List.mem_cons_of_mem _ hx)) _
        _ = ((s.err.isSome || hasStaticViolation a inObject vars)
              || anyViolation rest inObject vars) := by rw [visitNext_err a inObject vars s ha]
        _ = (s.err.isSome || anyViolation (a :: rest) inObject vars) := by
            simp [anyViolation, Bool.or_assoc]

/-- The named-pair loop accumulates the disjunction of the children's
violations into the error flag. -/
theorem visitSnd_err (inObject : Bool) (vars : List String) :
    ∀ (l : List (String × AST)),
    (∀ p ∈ l, ∀ (io : Bool) (v : List String),
      (analyzeVisit p.2 io v).1.isSome = hasStaticViolation p.2 io v) →
    ∀ s : AnalysisState, (visitSnd l inObject vars s).err.isSome
      = (s.err.isSome || anySndViolation l inObject vars) := by
  intro l
  induction l with
  | nil => intro hl s; simp [visitSnd, anySndViolation]
  | cons p rest ih =>
      intro hl s
      obtain ⟨nm, a⟩ := p
      have ha := hl (nm, a) (List.mem_cons_self _ _)
      calc (visitSnd ((nm, a) :: rest) inObject vars s).err.isSome
          = (visitSnd rest inObject vars (visitNext a inObject vars s)).err.isSome := by
            simp only [visitSnd]
        _ = ((visitNext a inObject vars s).err.isSome || anySndViolation rest inObject vars) :=
            ih (fun x hx => hl x (List.mem_cons_of_mem _ hx)) _
        _ = ((s.err.isSome || hasStaticViolation a inObject vars)
              || anySndViolation rest inObject vars) := by rw [visitNext_err a inObject vars s ha]
        _ = (s.err.isSome || anySndViolation ((nm, a) :: rest) inObject vars) := by
            simp [anySndViolation, Bool.or_assoc]

/-- The object-field loop accumulates name violations (outer context) and
body violations (inside the object) into the error flag. -/
theorem visitFields_err (inObject : Bool) (vars : List String) :
    ∀ (l : List (AST × AST)),
    (∀ p ∈ l, (∀ (io : Bool) (v : List String),
        (analyzeVisit p.1 io v).1.isSome = hasStaticViolation p.1 io v)
      ∧ (∀ (io : Bool) (v : List String),
        (analyzeVisit p.2 io v).1.isSome = hasStaticViolation p.2 io v)) →
    ∀ s : AnalysisState, (visitFields l inObject vars s).err.isSome
      = (s.err.isSome || fieldsViolation l inObject vars) := by
  intro l
  induction l with
  | nil => intro hl s; simp [visitFields, fieldsViolation]
  | cons p rest ih =>
      intro hl s
      obtain ⟨nameE, body⟩ := p
      have ha := hl (nameE, body) (List.mem_cons_self _ _)
      calc (visitFields ((nameE, body) :: rest) inObject vars s).err.isSome
          = (visitFields rest inObject vars
              (visitNext body true vars (visitNext nameE inObject vars s))).err.isSome := by
            simp only [visitFields]
        _ = ((visitNext body true vars (visitNext nameE inObject vars s)).err.isSome
              || fieldsViolation rest inObject vars) :=
            ih (fun x hx => hl x (List.mem_cons_of_mem _ hx)) _
        _ = (((visitNext nameE inObject vars s).err.isSome || hasStaticViolation body true vars)
              || fieldsViolation rest inObject vars) := by
            rw [visitNext_err body true vars _ ha.2]
        _ = (((s.err.isSome || hasStaticViolation nameE inObject vars)
              || hasStaticViolation body true vars) || fieldsViolation rest inObject vars) := by
            rw [visitNext_err nameE inObject vars s ha.1]
        _ = (s.err.isSome || fieldsViolation ((nameE, body) :: rest) inObject vars) := by
            simp [fieldsViolation, Bool.or_assoc]


/-- The analyzer reports an error exactly on the trees containing a static
violation, by strong induction on the tree size. -/
theorem analyzeVisit_err_isSome :
    ∀ (n : ℕ) (a : AST), sizeOf a ≤ n → ∀ (inObject : Bool) (vars : List String),
      (analyzeVisit a inObject vars).1.isSome = hasStaticViolation a inObject vars := by
  intro n
  induction n with
  | zero =>
      intro a h
      exfalso
      cases a <;> simp at h
  | succ n ih =>
      intro a hle inObject vars
      cases a with
      | apply target positional named =>
          simp only [AST.apply.sizeOf_spec] at hle
          have ht : ∀ (io : Bool) (v : List String),
              (analyzeVisit target io v).1.isSome = hasStaticViolation target io v :=
            fun io v => ih target (by omega) io v
          have hpos : ∀ x ∈ positional, ∀ (io : Bool) (v : List String),
              (analyzeVisit x io v).1.isSome = hasStaticViolation x io v := by
            intro x hx io v
            have h1 := List.sizeOf_lt_of_mem hx
            exact ih x (by omega) io v
          have hnamed : ∀ p ∈ named, ∀ (io : Bool) (v : List String),
              (analyzeVisit p.2 io v).1.isSome = hasStaticViolation p.2 io v := by
            intro p hp io v
            have h1 := List.sizeOf_lt_of_mem hp
            obtain ⟨p1, p2⟩ := p
            simp only [Prod.mk.sizeOf_spec] at h1
            exact ih p2 (by omega) io v
          simp only [analyzeVisit, hasStaticViolation]
          rw [visitSnd_err inObject vars named hnamed,
            visitList_err inObject vars positional hpos,
            visitNext_err target inObject vars _ ht]
          simp [Bool.or_assoc]
      | array elements =>
          simp only [AST.array.sizeOf_spec] at hle
          have hel : ∀ x ∈ elements, ∀ (io : Bool) (v : List String),
              (analyzeVisit x io v).1.isSome = hasStaticViolation x io v := by
            intro x hx io v
            have h1 := List.sizeOf_lt_of_mem hx
            exact ih x (by omega) io v
          simp only [analyzeVisit, hasStaticViolation]
          rw [visitList_err inObject vars elements hel]
          simp
      | binary left right =>
          simp only [AST.binary.sizeOf_spec] at hle
          have hl : ∀ (io : Bool) (v : List String),
              (analyzeVisit left io v).1.isSome = hasStaticViolation left io v :=
            fun io v => ih left (by omega) io v
          have hr : ∀ (io : Bool) (v : List String),
              (analyzeVisit right io v).1.isSome = hasStaticViolation right io v :=
            fun io v => ih right (by omega) io v
          simp only [analyzeVisit, hasStaticViolation]
          rw [visitNext_err right inObject vars _ hr, visitNext_err left inObject vars _ hl]
          simp
      | conditional cond branchTrue branchFalse =>
          simp only [AST.conditional.sizeOf_spec] at hle
          have hc : ∀ (io : Bool) (v : List String),
              (analyzeVisit cond io v).1.isSome = hasStaticViolation cond io v :=
            fun io v => ih cond (by omega) io v
          have h1 : ∀ (io : Bool) (v : List String),
              (analyzeVisit branchTrue io v).1.isSome = hasStaticViolation branchTrue io v :=
            fun io v => ih branchTrue (by omega) io v
          have h2 : ∀ (io : Bool) (v : List String),
              (analyzeVisit branchFalse io v).1.isSome = hasStaticViolation branchFalse io v :=
            fun io v => ih branchFalse (by omega) io v
          simp only [analyzeVisit, hasStaticViolation]
          rw [visitNext_err branchFalse inObject vars _ h2,
            visitNext_err branchTrue inObject vars _ h1,
            visitNext_err cond inObject vars _ hc]
          simp [Bool.or_assoc]
      | error expr =>
          simp only [AST.error.sizeOf_spec] at hle
          have he : ∀ (io : Bool) (v : List String),
              (analyzeVisit expr io v).1.isSome = hasStaticViolation expr io v :=
            fun io v => ih expr (by omega) io v
          simp only [analyzeVisit, hasStaticViolation]
          rw [visitNext_err expr inObject vars _ he]
          simp
      | function required optional body =>
          simp only [AST.function.sizeOf_spec] at hle
          have hb : ∀ (io : Bool) (v : List String),
              (analyzeVisit body io v).1.isSome = hasStaticViolation body io v :=
            fun io v => ih body (by omega) io v
          have hopt : ∀ p ∈ optional, ∀ (io : Bool) (v : List String),
              (analyzeVisit p.2 io v).1.isSome = hasStaticViolation p.2 io v := by
            intro p hp io v
            have h1 := List.sizeOf_lt_of_mem hp
            obtain ⟨p1, p2⟩ := p
            simp only [Prod.mk.sizeOf_spec] at h1
            exact ih p2 (by omega) io v
          simp only [analyzeVisit, hasStaticViolation]
          rw [visitNext_err body inObject _ _ hb, visitSnd_err inObject _ optional hopt]
          simp [Bool.or_assoc]
      | importA => simp [analyzeVisit, hasStaticViolation]
      | importStr => simp [analyzeVisit, hasStaticViolation]
      | inSuper indexE =>
          simp only [AST.inSuper.sizeOf_spec] at hle
          have hi : ∀ (io : Bool) (v : List String),
              (analyzeVisit indexE io v).1.isSome = hasStaticViolation indexE io v :=
            fun io v => ih indexE (by omega) io v
          cases inObject with
          | false => simp [analyzeVisit, hasStaticViolation]
          | true =>
              simp only [analyzeVisit, hasStaticViolation]
              simp only [Bool.not_true, Bool.false_eq_true, if_false]
              rw [visitNext_err indexE true vars _ hi]
              simp
      | superIndex indexE =>
          simp only [AST.superIndex.sizeOf_spec] at hle
          have hi : ∀ (io : Bool) (v : List String),
              (analyzeVisit indexE io v).1.isSome = hasStaticViolation indexE io v :=
            fun io v => ih indexE (by omega) io v
          cases inObject with
          | false => simp [analyzeVisit, hasStaticViolation]
          | true =>
              simp only [analyzeVisit, hasStaticViolation]
              simp only [Bool.not_true, Bool.false_eq_true, if_false]
              rw [visitNext_err indexE true vars _ hi]
              simp
      | index target indexE =>
          simp only [AST.index.sizeOf_spec] at hle
          have ht : ∀ (io : Bool) (v : List String),
              (analyzeVisit target io v).1.isSome = hasStaticViolation target io v :=
            fun io v => ih target (by omega) io v
          have hi : ∀ (io : Bool) (v : List String),
              (analyzeVisit indexE io v).1.isSome = hasStaticViolation indexE io v :=
            fun io v => ih indexE (by omega) io v
          simp only [analyzeVisit, hasStaticViolation]
          rw [visitNext_err indexE inObject vars _ hi, visitNext_err target inObject vars _ ht]
          simp
      | localA binds body =>
          simp only [AST.localA.sizeOf_spec] at hle
          have hb : ∀ (io : Bool) (v : List String),
              (analyzeVisit body io v).1.isSome = hasStaticViolation body io v :=
            fun io v => ih body (by omega) io v
          have hbinds : ∀ p ∈ binds, ∀ (io : Bool) (v : List String),
              (analyzeVisit p.2 io v).1.isSome = hasStaticViolation p.2 io v := by
            intro p hp io v
            have h1 := List.sizeOf_lt_of_mem hp
            obtain ⟨p1, p2⟩ := p
            simp only [Prod.mk.sizeOf_spec] at h1
            exact ih p2 (by omega) io v
          simp only [analyzeVisit, hasStaticViolation]
          rw [visitNext_err body inObject _ _ hb, visitSnd_err inObject _ binds hbinds]
          simp [Bool.or_assoc]
      | litBool => simp [analyzeVisit, hasStaticViolation]
      | litNull => simp [analyzeVisit, hasStaticViolation]
      | litNum => simp [analyzeVisit, hasStaticViolation]
      | litStr => simp [analyzeVisit, hasStaticViolation]
      | desugaredObject asserts fields =>
          simp only [AST.desugaredObject.sizeOf_spec] at hle
          have has : ∀ x ∈ asserts, ∀ (io : Bool) (v : List String),
              (analyzeVisit x io v).1.isSome = hasStaticViolation x io v := by
            intro x hx io v
            have h1 := List.sizeOf_lt_of_mem hx
            exact ih x (by omega) io v
          have hf : ∀ p ∈ fields, (∀ (io : Bool) (v : List String),
              (analyzeVisit p.1 io v).1.isSome = hasStaticViolation p.1 io v)
            ∧ (∀ (io : Bool) (v : List String),
              (analyzeVisit p.2 io v).1.isSome = hasStaticViolation p.2 io v) := by
            intro p hp
            have h1 := List.sizeOf_lt_of_mem hp
            obtain ⟨p1, p2⟩ := p
            simp only [Prod.mk.sizeOf_spec] at h1
            exact ⟨fun io v => ih p1 (by omega) io v, fun io v => ih p2 (by omega) io v⟩
          simp only [analyzeVisit, hasStaticViolation]
          rw [visitList_err true vars asserts has, visitFields_err inObject vars fields hf]
          simp
      | self =>
          cases inObject with
          | false => simp [analyzeVisit, hasStaticViolation]
          | true => simp [analyzeVisit, hasStaticViolation]
      | unary expr =>
          simp only [AST.unary.sizeOf_spec] at hle
          have he : ∀ (io : Bool) (v : List String),
              (analyzeVisit expr io v).1.isSome = hasStaticViolation expr io v :=
            fun io v => ih expr (by omega) io v
          simp only [analyzeVisit, hasStaticViolation]
          rw [visitNext_err expr inObject vars _ he]
          simp
      | var id =>
          cases hc : setContains vars id with
          | false => simp [analyzeVisit, hasStaticViolation, hc]
          | true => simp [analyzeVisit, hasStaticViolation, hc]


/-- C7: static analysis with initial scope `{std}` fails exactly on the
trees containing an unbound `var` or a `self`/`superIndex`/`inSuper` node
outside any object, and succeeds on all others; with concrete runs: `std`
resolves, an unknown variable and a bare `self` fail, and `self` inside an
object field body succeeds. -/
theorem claim_C7_static_analysis :
    (∀ node : AST,
        (analyze node).isSome = hasStaticViolation node false (setAdd [] "std"))
  ∧ analyze (.var "std") = none
  ∧ (analyze (.var "x")).isSome = true
  ∧ (analyze .self).isSome = true
  ∧ (analyze (.desugaredObject [] [(.litStr, .self)])).isSome = false := by
  refine ⟨?_, ?_, ?_, ?_, ?_⟩
  · intro node
    simp only [analyze]
    exact analyzeVisit_err_isSome (sizeOf node) node le_rfl false _
  · simp [analyze, analyzeVisit, setContains, setAdd]
  · simp [analyze, analyzeVisit, setContains, setAdd]
  · simp [analyze, analyzeVisit]
  · simp [analyze, analyzeVisit, visitFields, visitList, visitNext, setContains, setAdd]

end GoJsonnet
